import Mathlib

/-!
Verification of the respackr resource-pack generation pipeline.

The development shallowly embeds the Python sources:
  * `genscript.py` (the monolithic pipeline: tier loop, exclusion/inclusion,
    `pack.mcmeta` generation, ZIP assembly),
  * `modules/` (the refactored revision: `exclusion.py`, `inclusion.py`,
    `mcmeta.py`, `makezip.py`, `theme.py`, `svg2png.py`),
  * `respackr/generate/sources.py` (`SourceLoader`, `ProxyLoader`).

Python strings are modelled as `List Char`, Python `dict`s as insertion-ordered
association lists with first-occurrence lookup, in-place overwrite and
append-on-new-key insertion (the Python 3.7+ dict contract).  File contents
are an abstract type `α`; external collaborators (the JSON parser, the SVG
rasterization backend, the XML attribute parser, the filesystem) are passed in
as explicit function or data parameters.
-/

set_option maxHeartbeats 1000000

/-- A forward-slash relative path (a Python `str`), modelled as its characters. -/
abbrev PathL := List Char

/-- Characters of a string literal; used to write concrete paths. -/
def pstr (s : String) : PathL := s.data

/-! ### Python string primitives -/

/-- Python `s.startswith(p)`. -/
def pstartsWith : PathL → PathL → Bool
  | _, [] => true
  | [], _ :: _ => false
  | c :: cs, p :: ps => c == p && pstartsWith cs ps

/-- Python `s.endswith(p)`. -/
def endsWithL (s p : PathL) : Bool := pstartsWith s.reverse p.reverse

/-- Python `s.lower()` (ASCII is all that occurs in the sources). -/
def lowerL (s : PathL) : PathL := s.map Char.toLower

/-- Python `s[:-n]`. -/
def dropRightL (s : PathL) (n : Nat) : PathL := s.take (s.length - n)

/-- Python `s.replace('\\', '/')` as used for path normalization. -/
def normSlash (p : PathL) : PathL := p.map (fun c => if c == '\\' then '/' else c)

/-- Python `s.rstrip('/')`. -/
def rstripSlash (p : PathL) : PathL := (p.reverse.dropWhile (fun c => c == '/')).reverse

/-- Python `f"{n}"` for a natural number. -/
def natStr (n : Nat) : PathL := (Nat.toDigits 10 n)

/-- Python `needle in hay` (substring containment). -/
def strContains (hay needle : PathL) : Bool :=
  match hay with
  | [] => pstartsWith [] needle
  | _ :: t => pstartsWith hay needle || strContains t needle

/-- Helper for Python `s.replace("", r)`: interleave `r` around every element. -/
def interleave (r : List Char) : List Char → List Char
  | [] => r
  | c :: cs => r ++ c :: interleave r cs

/-- Replacement of a nonempty pattern `ph :: pt` by `r`, left to right over
non-overlapping occurrences (the Python `str.replace` strategy).  The fuel
argument makes the recursion structural; every step consumes at least one
character, so any fuel at least the text's length computes the fixpoint. -/
def replaceCore (ph : Char) (pt r : List Char) : Nat → List Char → List Char
  | _, [] => []
  | 0, s => s
  | fuel + 1, c :: cs =>
    if pstartsWith (c :: cs) (ph :: pt) then
      r ++ replaceCore ph pt r fuel (cs.drop pt.length)
    else c :: replaceCore ph pt r fuel cs

/-- Python `s.replace(pat, rep)`: every non-overlapping occurrence, left to right. -/
def pyReplace (s pat rep : List Char) : List Char :=
  match pat with
  | [] => interleave rep s
  | ph :: pt => replaceCore ph pt rep s.length s

/-! ### Python dicts as insertion-ordered association lists -/

/-- Python dict: insertion-ordered key/value list.  Well-formed dicts have
distinct keys; the operations below maintain that invariant. -/
abbrev Dict (κ : Type) (α : Type) := List (κ × α)

/-- Python `d.get(k)` / `d[k]` lookup: value at the first matching key. -/
def dGet {κ α : Type} [DecidableEq κ] : Dict κ α → κ → Option α
  | [], _ => none
  | e :: rest, k => if e.1 = k then some e.2 else dGet rest k

/-- Python `k in d`. -/
def dMem {κ α : Type} [DecidableEq κ] (d : Dict κ α) (k : κ) : Bool :=
  (dGet d k).isSome

/-- Python `d[k] = v`: overwrite in place if the key is present, append otherwise. -/
def dSet {κ α : Type} [DecidableEq κ] : Dict κ α → κ → α → Dict κ α
  | [], k, v => [(k, v)]
  | e :: rest, k, v => if e.1 = k then (k, v) :: rest else e :: dSet rest k v

/-- Python `del d[k]`. -/
def dDel {κ α : Type} [DecidableEq κ] : Dict κ α → κ → Dict κ α
  | [], _ => []
  | e :: rest, k => if e.1 = k then dDel rest k else e :: dDel rest k

/-- Python `list(d.keys())`. -/
def dKeys {κ α : Type} (d : Dict κ α) : List κ := d.map Prod.fst

/-! ### Sorting (`sorted(keys, reverse=True)`) -/

instance : IsTotal Nat (fun a b => b ≤ a) := ⟨fun a b => le_total b a⟩

instance : IsTrans Nat (fun a b => b ≤ a) := ⟨fun _ _ _ h1 h2 => le_trans h2 h1⟩

/-- Python `sorted(keys, reverse=True)` for integer keys (descending). -/
def sortDesc (l : List Nat) : List Nat := l.insertionSort (fun a b => b ≤ a)

/-! ### modules/mcmeta.py -/

/-- `get_min_fmt` (modules/mcmeta.py lines 41-50, identical loop in
genscript.py `generate_pack_mcmeta`): scan the descending format keys, and on
the first key below `cur_fmt` return that key plus one; otherwise `cur_fmt`. -/
def get_min_fmt (sorted_formats : List Nat) (cur_fmt : Nat) : Nat :=
  match sorted_formats.find? (fun fmt => fmt < cur_fmt) with
  | some fmt => fmt + 1
  | none => cur_fmt

/-- `get_max_fmt` (modules/mcmeta.py lines 52-63): add the configured
`max_format` buffer when `cur_fmt` equals the first (highest) declared format;
`if config.max_format` is Python truthiness, so a zero buffer adds nothing. -/
def get_max_fmt (sorted_formats : List Nat) (max_format : Nat) (cur_fmt : Nat) : Nat :=
  match sorted_formats.head? with
  | none => cur_fmt
  | some first_fmt =>
    if cur_fmt = first_fmt then
      (if max_format ≠ 0 then cur_fmt + max_format else cur_fmt)
    else cur_fmt

/-- The placeholder fields `format` / `min_format` / `max_format` computed by
`generate_pack_mcmeta` (modules/mcmeta.py lines 75-92), including the 0 → 1
format bump, against the declared format keys sorted descending. -/
def mcmetaFields (formats : List Nat) (max_format : Nat) (tier : Nat) : Nat × Nat × Nat :=
  let cur_fmt := if tier = 0 then 1 else tier
  (cur_fmt, get_min_fmt (sortDesc formats) cur_fmt,
    get_max_fmt (sortDesc formats) max_format cur_fmt)

/-! ### respackr/generate/sources.py - SourceLoader -/

/-- `SourceLoader` state: the loaded mapping plus the `initial_load` and
`readonly` flags (sources.py lines 17-29). -/
structure SourceLoader (α : Type) where
  source_path : PathL
  filecount : Nat
  initial_load : Bool
  readonly : Bool
  data : Dict PathL α

/-- `SourceLoader.__init__`: empty data, `initial_load = False`. -/
def SourceLoader.mkLoader (α : Type) (source_path : PathL) (readonly : Bool) :
    SourceLoader α :=
  ⟨source_path, 0, false, readonly, []⟩

def readonlyMsg : PathL := pstr "Sources are in read-only mode and cannot be modified."

def notLoadedMsg : PathL := pstr "Sources have not been loaded yet. Call load_sources() first."

/-- `SourceLoader.__setitem__`: raise (returning the message and the untouched
state) in readonly mode, otherwise store. -/
def SourceLoader.setitem {α : Type} (s : SourceLoader α) (k : PathL) (v : α) :
    Option PathL × SourceLoader α :=
  if s.readonly then (some readonlyMsg, s)
  else (none, { s with data := dSet s.data k v })

/-- `SourceLoader.update`: raise in readonly mode, otherwise `dict.update`. -/
def SourceLoader.updateDict {α : Type} (s : SourceLoader α) (other : Dict PathL α) :
    Option PathL × SourceLoader α :=
  if s.readonly then (some readonlyMsg, s)
  else (none, { s with data := other.foldl (fun d kv => dSet d kv.1 kv.2) s.data })

/-- `SourceLoader.__getitem__`: raise until `load_sources` has completed. -/
def SourceLoader.getitem {α : Type} (s : SourceLoader α) (k : PathL) : Except PathL α :=
  if s.initial_load = false then .error notLoadedMsg
  else
    match dGet s.data k with
    | some v => .ok v
    | none => .error (pstr "KeyError")

/-! ### modules/makezip.py - create_zip_archive -/

/-- Archive-assembly bookkeeping: entries written (at their archive paths, in
order), the `added_files_in_zip` set, and the `duplicate_png` error tally. -/
structure ZipState (α : Type) where
  written : List (PathL × α)
  added_files_in_zip : List PathL
  duplicate_png_errors : Nat

/-- The allow-list test of makezip.py line 73 / line 89 (and genscript.py
lines 623/637): `rel_path.startswith(p) or rel_path == p`. -/
def allowedMatch (allowed_paths : List PathL) (rel_path : PathL) : Bool :=
  allowed_paths.any (fun p => pstartsWith rel_path p || rel_path == p)

/-- `create_zip_archive` (modules/makezip.py lines 15-113): the sequence of
entries written into the ZIP.  `license_file` is `some (path, bytes)` when a
license is configured and exists on disk.  Filesystem effects (directory
creation, the actual `zipfile` writes) and the dry-run early return are
outside the entry-selection logic modelled here. -/
def create_zip_archive {α : Type} (allowed_paths : List PathL)
    (sorted_scales : Dict Nat Nat) (cur_scale : Option Nat)
    (license_file : Option (PathL × α)) (src_files : Dict PathL α)
    (gen_images : Dict Nat (Dict PathL α)) : ZipState α :=
  let cur_dpi : Nat := match cur_scale with
    | some s => (dGet sorted_scales s).getD 0
    | none => 0
  let scale_png : PathL :=
    pstr "scale_" ++ (match cur_scale with
      | some s => natStr s
      | none => pstr "None") ++ pstr ".png"
  let st0 : ZipState α := ⟨[], [], 0⟩
  let st1 := match dGet src_files scale_png with
    | some data => ZipState.mk [(pstr "pack.png", data)] [scale_png] 0
    | none => st0
  let st2 := match license_file with
    | some lf =>
        ZipState.mk (st1.written ++ [lf]) (st1.added_files_in_zip ++ [lf.1])
          st1.duplicate_png_errors
    | none => st1
  let st3 := src_files.foldl (fun st kv =>
    if allowedMatch allowed_paths kv.1 then
      ZipState.mk (st.written ++ [kv]) (st.added_files_in_zip ++ [kv.1])
        st.duplicate_png_errors
    else st) st2
  match cur_scale with
  | none => st3
  | some _ =>
    match dGet gen_images cur_dpi with
    | none => st3
    | some pngs =>
      pngs.foldl (fun st kv =>
        if allowedMatch allowed_paths kv.1 then
          if st.added_files_in_zip.contains kv.1 then
            ZipState.mk st.written st.added_files_in_zip (st.duplicate_png_errors + 1)
          else
            ZipState.mk (st.written ++ [kv]) (st.added_files_in_zip ++ [kv.1])
              st.duplicate_png_errors
        else st) st3

/-! ### modules/theme.py - apply_theme -/

/-- Per-SVG substitution map built by apply_theme (modules/theme.py lines
57-75): for each default color, map its lowercased hex either to the theme's
lowercased replacement (when the theme has the key and the hex occurs in the
text) or to itself. -/
def buildColorMap (theme_color_map default_colors : Dict PathL PathL)
    (svg_content : PathL) : Dict PathL PathL :=
  default_colors.foldl (fun m kv =>
    if dMem theme_color_map kv.1 && strContains svg_content kv.2 then
      dSet m (lowerL kv.2) (lowerL ((dGet theme_color_map kv.1).getD []))
    else dSet m (lowerL kv.2) (lowerL kv.2)) []

/-- `apply_theme` (modules/theme.py lines 48-83): rewrite every `.svg` entry
by the collected substitutions.  Contents are modelled as the UTF-8 decoded
text; decode-then-encode round-trips valid UTF-8 byte content. -/
def apply_theme (theme_color_map default_colors : Dict PathL PathL)
    (src_files : Dict PathL PathL) : Dict PathL PathL :=
  (dKeys src_files).foldl (fun st rel_path =>
    if endsWithL (lowerL rel_path) (pstr ".svg") then
      match dGet st rel_path with
      | none => st
      | some svg_content =>
        let m := buildColorMap theme_color_map default_colors svg_content
        let themed := m.foldl (fun s kv => pyReplace s kv.1 kv.2) svg_content
        dSet st rel_path themed
    else st) src_files

/-! ### modules/svg2png.py - convert_svg_to_png -/

/-- Python `int()` truncation toward zero, on an exact rational. -/
def pyInt (q : ℚ) : ℤ := q.num.tdiv (q.den : ℤ)

/-- `convert_svg_to_png` (modules/svg2png.py lines 43-105, same loop in
genscript.py lines 348-407).  `dims` models the XML width/height attribute
parse (pt suffix stripped; `none` is the ValueError/TypeError fallback path),
`render` models the cairosvg backend invoked with explicit target width and
height.  Scaling: `scale_factor = dpi / 96.0`, `int(dim * scale_factor)`. -/
def convert_svg_to_png {α : Type} (dims : α → Option (ℚ × ℚ))
    (render : α → ℤ → ℤ → α) (scales : Dict Nat Nat) (src_files : Dict PathL α) :
    Dict PathL α × Dict Nat (Dict PathL α) :=
  (dKeys src_files).foldl (fun acc rel_path =>
    if endsWithL (lowerL rel_path) (pstr ".svg") then
      match dGet acc.1 rel_path with
      | none => acc
      | some svg_content =>
        let gen' := scales.foldl (fun g kv =>
          let wh := (dims svg_content).getD (1024, 1024)
          let dpi : Nat := kv.2
          let scale_factor : ℚ := (dpi : ℚ) / 96
          let target_width := pyInt (wh.1 * scale_factor)
          let target_height := pyInt (wh.2 * scale_factor)
          let png_data := render svg_content target_width target_height
          dSet g dpi
            (dSet ((dGet g dpi).getD []) (dropRightL rel_path 4 ++ pstr ".png") png_data))
          acc.2
        (dDel acc.1 rel_path, gen')
    else acc) (src_files, [])

/-! ### modules/exclusion.py - apply_exclusions -/

/-- The `.svg` → `.png` translation applied to exclusion entries before
testing them against generated bitmap paths (exclusion.py lines 66-67). -/
def svgExclToPng (excluded_path : PathL) : PathL :=
  rstripSlash (if endsWithL excluded_path (pstr ".svg")
    then dropRightL excluded_path 4 ++ pstr ".png" else excluded_path)

/-- The exclusion test (exclusion.py lines 45-46): exact match or
`excluded_path + "/"` as a leading segment. -/
def exclMatch (normalized_rel_path excluded_path : PathL) : Bool :=
  normalized_rel_path == excluded_path ||
    pstartsWith normalized_rel_path (excluded_path ++ pstr "/")

/-- `apply_exclusions` (modules/exclusion.py lines 13-85, same logic in
genscript.py lines 409-472).  `parse` models `json.loads(...)['exclusions']`
on the manifest entry's bytes (a malformed manifest aborts the run before
this logic, outside the model).  No `<fmt>.json` manifest means no-op. -/
def apply_exclusions {α : Type} (parse : α → List PathL) (cur_fmt : Nat)
    (src_files : Dict PathL α) (gen_images : Dict Nat (Dict PathL α)) :
    Dict PathL α × Dict Nat (Dict PathL α) :=
  match dGet src_files (natStr cur_fmt ++ pstr ".json") with
  | none => (src_files, gen_images)
  | some file_data =>
    let excluded_paths := (parse file_data).map (fun p => rstripSlash (normSlash p))
    let src' := (dKeys src_files).foldl (fun st rel_path =>
      if excluded_paths.any (fun ex => exclMatch (rstripSlash (normSlash rel_path)) ex)
      then dDel st rel_path else st) src_files
    let gen' := gen_images.map (fun b =>
      (b.1, (dKeys b.2).foldl (fun pngs rel_path =>
        if excluded_paths.any
            (fun ex => exclMatch (rstripSlash (normSlash rel_path)) (svgExclToPng ex))
        then dDel pngs rel_path else pngs) b.2))
    (src', gen')

/-! ### modules/inclusion.py - apply_inclusions (subtree move) -/

/-- One move of inclusion.py lines 54-56 / 67-69:
`d[rel_path[len(inc_dir):]] = data; del d[rel_path]`. -/
def inclusionStep {α : Type} (n : Nat) (st : Dict PathL α) (kv : PathL × α) :
    Dict PathL α :=
  dDel (dSet st (kv.1.drop n) kv.2) kv.1

/-- `gen_images_filter` (inclusion.py lines 27-36): per-DPI sub-dicts of
paths starting with the inclusion folder, DPIs with no matches omitted. -/
def gen_images_filter {α : Type} (inc_dir : PathL)
    (gen_images : Dict Nat (Dict PathL α)) : Dict Nat (Dict PathL α) :=
  gen_images.foldr (fun b acc =>
    let sub_matches := b.2.filter (fun kv => pstartsWith kv.1 inc_dir)
    if sub_matches.isEmpty then acc else (b.1, sub_matches) :: acc) []

/-- `apply_inclusions` (modules/inclusion.py lines 13-79): move the
`"<fmt>/"` subtree of both dicts onto the root, overriding existing entries;
no-op when no subtree entries exist. -/
def apply_inclusions {α : Type} (cur_fmt : Nat) (src_files : Dict PathL α)
    (gen_images : Dict Nat (Dict PathL α)) :
    Dict PathL α × Dict Nat (Dict PathL α) :=
  let inc_dir := natStr cur_fmt ++ pstr "/"
  let filtered_src := src_files.filter (fun kv => pstartsWith kv.1 inc_dir)
  let filtered_img := gen_images_filter inc_dir gen_images
  if filtered_src.isEmpty && filtered_img.isEmpty then (src_files, gen_images)
  else
    let src' := filtered_src.foldl (inclusionStep inc_dir.length) src_files
    let gen' := filtered_img.foldl (fun g b =>
      b.2.foldl (fun g kv =>
        dSet g b.1 (inclusionStep inc_dir.length ((dGet g b.1).getD []) kv)) g)
      gen_images
    (src', gen')

/-! ### genscript.py - apply_inclusions (rebuild variant), mcmeta, main loop -/

/-- genscript.py `apply_inclusions` (lines 474-516): rebuild both dicts,
stripping the `"<fmt>/"` tier folder from matching paths. -/
def apply_inclusions_gs {α : Type} (current_format : Nat)
    (src_files : Dict PathL α) (gen_images : Dict Nat (Dict PathL α)) :
    Dict PathL α × Dict Nat (Dict PathL α) :=
  let dir := natStr current_format ++ pstr "/"
  let new_src := src_files.foldl (fun acc kv =>
    if pstartsWith kv.1 dir then dSet acc (kv.1.drop dir.length) kv.2
    else dSet acc kv.1 kv.2) []
  let new_gen := gen_images.foldl (fun acc b =>
    b.2.foldl (fun acc kv =>
      if pstartsWith kv.1 dir then
        dSet acc b.1 (dSet ((dGet acc b.1).getD []) (kv.1.drop dir.length) kv.2)
      else dSet acc b.1 (dSet ((dGet acc b.1).getD []) kv.1 kv.2)) acc) []
  (new_src, new_gen)

/-- genscript.py `generate_pack_mcmeta` (lines 518-568): delete any previous
`pack.mcmeta`, bump format 0 to 1, compute the minimum supported format, and
insert freshly generated content.  `mkMeta` models the
`json.dumps(pack_data).encode()` serialization. -/
def generate_pack_mcmeta_gs {α : Type} (mkMeta : Nat → Nat → Option Nat → α)
    (formats : List Nat) (current_format : Nat) (scale : Option Nat)
    (src_files : Dict PathL α) : Dict PathL α :=
  let src1 := dDel src_files (pstr "pack.mcmeta")
  let cur := if current_format = 0 then 1 else current_format
  let min_supported := get_min_fmt formats cur
  dSet src1 (pstr "pack.mcmeta") (mkMeta cur min_supported scale)

/-- One iteration of genscript.py main's format loop (lines 726-789, without
the `--format` filter): exclusions, then inclusions, then the per-scale
`pack.mcmeta` regeneration; `create_zip_archive` reads but does not mutate
the shared state. -/
def format_iteration {α : Type} (parse : α → List PathL)
    (mkMeta : Nat → Nat → Option Nat → α) (scaleKeys : List Nat)
    (sorted_formats : List Nat) (current_format : Nat)
    (st : Dict PathL α × Dict Nat (Dict PathL α)) :
    Dict PathL α × Dict Nat (Dict PathL α) :=
  let p1 := apply_exclusions parse current_format st.1 st.2
  let p2 := apply_inclusions_gs current_format p1.1 p1.2
  let s3 := scaleKeys.foldl
    (fun s sc => generate_pack_mcmeta_gs mkMeta sorted_formats current_format (some sc) s)
    p2.1
  (s3, p2.2)

/-- genscript.py main's format loop over the remaining formats, threading the
one shared state from one iteration to the next. -/
def format_loop {α : Type} (parse : α → List PathL)
    (mkMeta : Nat → Nat → Option Nat → α) (scaleKeys : List Nat)
    (sorted_formats : List Nat) :
    List Nat → Dict PathL α × Dict Nat (Dict PathL α) →
    Dict PathL α × Dict Nat (Dict PathL α)
  | [], st => st
  | f :: rest, st =>
    format_loop parse mkMeta scaleKeys sorted_formats rest
      (format_iteration parse mkMeta scaleKeys sorted_formats f st)

/-- genscript.py main lines 726-752: `for current_format in
sorted(formats.keys(), reverse=True)` over the shared mutable state. -/
def process_formats {α : Type} (parse : α → List PathL)
    (mkMeta : Nat → Nat → Option Nat → α) (scaleKeys : List Nat)
    (formats : List Nat) (st : Dict PathL α × Dict Nat (Dict PathL α)) :
    Dict PathL α × Dict Nat (Dict PathL α) :=
  format_loop parse mkMeta scaleKeys (sortDesc formats) (sortDesc formats) st

/-! ### respackr/generate/sources.py - ProxyLoader -/

/-- One regex match of the resolution search pattern inside a path:
`start` is `match.start(0)`, `text` is `match.group(0)` (the search key
followed by `.` or `/`), `size` is `int(match.group(1))`.  The matches are
supplied as data, modelling the output of `re.finditer` with the
caller-supplied search pattern. -/
structure RMatch where
  start : Nat
  text : PathL
  size : Nat
deriving DecidableEq

/-- The fixed allowed resolution set (sources.py line 119). -/
def sizes : List Nat := [32, 64, 128]

/-- A recorded `InvalidResolutionDirectoryWarning` entry
(sources.py lines 214-221). -/
structure DirErrRecord where
  filecount : Nat
  rel_path : PathL
  matched_dir : PathL
deriving DecidableEq

/-- The accumulated `ProxyLoader` state: the three error dicts and the
resolution map under construction. -/
structure ProxyState where
  tooMany : Dict PathL Nat
  invalidRes : Dict PathL Nat
  invalidDir : Dict PathL DirErrRecord
  proxy : Dict PathL (Dict Nat PathL)
deriving DecidableEq

/-- The keys of the `self.errors` dict.  The dedupe test at sources.py line
201 is `if start_path in self.errors:` - membership among THESE category
names, not among the recorded directory-error keys. -/
def errorCategoryKeys : List PathL :=
  [pstr "TooManyResolutionsWarning", pstr "InvalidResolutionWarning",
   pstr "InvalidResolutionDirectoryWarning"]

/-- Python `match.string[start_span - 1]`: when `start_span = 0` the index is
`-1`, which wraps to the last character. -/
def precedingChar (s : PathL) (start : Nat) : Option Char :=
  if start = 0 then s.get? (s.length - 1) else s.get? (start - 1)

/-- The loop `for i in range(match.start(0), -1, -1)` searching downward for
a `/` (sources.py lines 208-212). -/
def findSlashDown (p : PathL) : Nat → Option Nat
  | 0 => if p.get? 0 = some '/' then some 0 else none
  | i + 1 => if p.get? (i + 1) = some '/' then some (i + 1) else findSlashDown p i

/-- Python slice `p[a:b]`. -/
def sliceL (p : PathL) (a b : Nat) : PathL := (p.drop a).take (b - a)

/-- The per-path body of `ProxyLoader.__init__` (sources.py lines 159-236). -/
def processPath (st : ProxyState) (rel_path : PathL) (ms : List RMatch) :
    ProxyState :=
  if ms.length > 1 then
    { st with tooMany := dSet st.tooMany rel_path ms.length }
  else
    match ms with
    | [] =>
      let p1 := if dMem st.proxy rel_path then st.proxy
                else dSet st.proxy rel_path [(0, rel_path)]
      let inner := (dGet p1 rel_path).getD []
      let p2 := if dMem inner 0 then p1 else dSet p1 rel_path (dSet inner 0 rel_path)
      { st with proxy := p2 }
    | m :: _ =>
      if m.size ∉ sizes then
        { st with invalidRes := dSet st.invalidRes rel_path m.size }
      else
        let matchEnd := m.start + m.text.length
        let dirBranchInvalid : Bool :=
          ('/' ∈ m.text) && !(m.start == 1) &&
            !(precedingChar rel_path m.start == some '/')
        if dirBranchInvalid then
          let start_path := rel_path.take matchEnd
          if errorCategoryKeys.contains start_path then
            -- The "skip if already logged" branch.  It only fires when
            -- start_path equals one of the category names, and Python then
            -- raises KeyError unless that key is already recorded.
            { st with invalidDir :=
                match dGet st.invalidDir start_path with
                | some r =>
                    dSet st.invalidDir start_path { r with filecount := r.filecount + 1 }
                | none => st.invalidDir }
          else
            let directory_match := match findSlashDown rel_path m.start with
              | some i => sliceL rel_path (i + 1) matchEnd
              | none => []
            let rec1 := DirErrRecord.mk 1 rel_path directory_match
            { st with invalidDir := dSet st.invalidDir start_path rec1 }
        else
          let original_path := pyReplace rel_path m.text []
          let inner := (dGet st.proxy original_path).getD []
          { st with proxy := dSet st.proxy original_path (dSet inner m.size rel_path) }

/-- `ProxyLoader.__init__` over the source paths with their matches. -/
def proxyLoaderInit (sources : List (PathL × List RMatch)) : ProxyState :=
  sources.foldl (fun st e => processPath st e.1 e.2) (ProxyState.mk [] [] [] [])

/-! ### Dict lemmas -/

section DictLemmas
variable {κ α : Type} [DecidableEq κ]

theorem dGet_dSet_self (d : Dict κ α) (k : κ) (v : α) :
    dGet (dSet d k v) k = some v := by
  induction d with
  | nil => simp [dSet, dGet]
  | cons e rest ih =>
    by_cases h : e.1 = k <;> simp [dSet, dGet, h, ih]

theorem dGet_dSet_ne (d : Dict κ α) {k q : κ} (v : α) (h : k ≠ q) :
    dGet (dSet d k v) q = dGet d q := by
  induction d with
  | nil => simp [dSet, dGet, h]
  | cons e rest ih =>
    by_cases he : e.1 = k
    · subst he
      simp [dSet, dGet, h, Ne.symm h]
    · simp only [dSet, if_neg he]
      by_cases hq : e.1 = q <;> simp [dGet, hq, ih]

theorem dGet_dDel_self (d : Dict κ α) (k : κ) :
    dGet (dDel d k) k = none := by
  induction d with
  | nil => simp [dDel, dGet]
  | cons e rest ih =>
    by_cases h : e.1 = k <;> simp [dDel, dGet, h, ih]

theorem dGet_dDel_ne (d : Dict κ α) {k q : κ} (h : k ≠ q) :
    dGet (dDel d k) q = dGet d q := by
  induction d with
  | nil => rfl
  | cons e rest ih =>
    by_cases he : e.1 = k
    · have hq : e.1 ≠ q := by rw [he]; exact h
      simp [dDel, dGet, he, hq, h, ih]
    · by_cases hq : e.1 = q
      · simp [dDel, dGet, he, hq, Ne.symm h]
      · simp [dDel, dGet, he, hq, ih]

theorem dGet_isSome_of_mem : ∀ {d : Dict κ α} {k : κ} {v : α},
    (k, v) ∈ d → (dGet d k).isSome
  | [], _, _, h => by simp at h
  | e :: rest, k, v, h => by
    rcases List.mem_cons.mp h with h1 | h2
    · simp [dGet, ← h1]
    · by_cases he : e.1 = k <;>
        simp [dGet, he, dGet_isSome_of_mem h2]

theorem mem_of_dGet_eq_some : ∀ {d : Dict κ α} {k : κ} {v : α},
    dGet d k = some v → (k, v) ∈ d
  | [], _, _, h => by simp [dGet] at h
  | e :: rest, k, v, h => by
    by_cases he : e.1 = k
    · simp only [dGet, if_pos he] at h
      obtain ⟨e1, e2⟩ := e
      simp only at he
      simp [he, ← Option.some_inj.mp h]
    · simp only [dGet, if_neg he] at h
      exact List.mem_cons_of_mem _ (mem_of_dGet_eq_some h)

theorem dSet_eq_self_of_dGet : ∀ {d : Dict κ α} {k : κ} {v : α},
    dGet d k = some v → dSet d k v = d
  | [], _, _, h => by simp [dGet] at h
  | e :: rest, k, v, h => by
    by_cases he : e.1 = k
    · simp only [dGet, if_pos he] at h
      obtain ⟨e1, e2⟩ := e
      simp only at he
      simp [dSet, he, ← Option.some_inj.mp h]
    · simp only [dGet, if_neg he] at h
      simp [dSet, he, dSet_eq_self_of_dGet h]

theorem dGet_eq_some_of_mem_nodup : ∀ {d : Dict κ α} {k : κ} {v : α},
    (dKeys d).Nodup → (k, v) ∈ d → dGet d k = some v
  | [], _, _, _, h => by simp at h
  | e :: rest, k, v, hnd, h => by
    simp only [dKeys, List.map_cons, List.nodup_cons] at hnd
    rcases List.mem_cons.mp h with h1 | h2
    · simp [dGet, ← h1]
    · have hk : e.1 ≠ k := by
        intro hc
        exact hnd.1 (hc ▸ (List.mem_map_of_mem Prod.fst h2))
      simp [dGet, hk, dGet_eq_some_of_mem_nodup hnd.2 h2]

end DictLemmas

/-! ### pstartsWith lemmas -/

theorem pstartsWith_append (p q : PathL) : pstartsWith (p ++ q) p = true := by
  induction p with
  | nil => cases q <;> rfl
  | cons c cs ih => simp [pstartsWith, ih]

theorem append_drop_of_pstartsWith :
    ∀ {s p : PathL}, pstartsWith s p = true → p ++ s.drop p.length = s
  | s, [], _ => by simp
  | [], _ :: _, h => by simp [pstartsWith] at h
  | c :: cs, p :: ps, h => by
    simp only [pstartsWith, Bool.and_eq_true, beq_iff_eq] at h
    simp only [List.length_cons, List.drop_succ_cons, List.cons_append, h.1,
      List.cons.injEq, true_and]
    exact append_drop_of_pstartsWith h.2

theorem pstartsWith_of_append_left (p q r : PathL) (h : pstartsWith q r = true) :
    pstartsWith (p ++ q) (p ++ r) = true := by
  induction p with
  | nil => simpa using h
  | cons c cs ih => simp [pstartsWith, ih]

theorem not_pstartsWith_drop {s p : PathL} (hp : pstartsWith s p = true)
    (hq : pstartsWith (s.drop p.length) p = false) :
    pstartsWith s (p ++ p) = false := by
  by_contra hc
  rw [Bool.not_eq_false] at hc
  have hs := append_drop_of_pstartsWith hc
  have hs' := append_drop_of_pstartsWith hp
  -- s = (p ++ p) ++ rest, so s.drop p.length = p ++ rest
  have : s.drop p.length = p ++ (s.drop (p ++ p).length) := by
    conv_lhs => rw [← hs]
    simp [List.drop_append_eq_append_drop, List.length_append]
  rw [this, pstartsWith_append] at hq
  exact absurd hq (by decide)

/-! ### pyReplace lemmas -/

theorem interleave_nil : ∀ s : List Char, interleave [] s = s
  | [] => rfl
  | _ :: cs => by simp [interleave, interleave_nil cs]

theorem replaceCore_self_bounded (ph : Char) (pt : List Char) :
    ∀ (n : Nat) (s : List Char), s.length ≤ n →
      replaceCore ph pt (ph :: pt) n s = s
  | 0, [], _ => rfl
  | 0, _ :: _, h => by simp at h
  | _ + 1, [], _ => rfl
  | n + 1, c :: cs, h => by
    simp only [List.length_cons, Nat.add_le_add_iff_right] at h
    by_cases hpfx : pstartsWith (c :: cs) (ph :: pt) = true
    · have hdecomp := append_drop_of_pstartsWith hpfx
      simp only [List.length_cons, List.drop_succ_cons] at hdecomp
      have hlen : (cs.drop pt.length).length ≤ n := by
        have := List.length_drop pt.length cs
        omega
      rw [replaceCore, if_pos hpfx,
        replaceCore_self_bounded ph pt n (cs.drop pt.length) hlen]
      exact hdecomp
    · rw [replaceCore, if_neg hpfx, replaceCore_self_bounded ph pt n cs h]

theorem pyReplace_self (s p : List Char) : pyReplace s p p = s := by
  cases p with
  | nil => simpa [pyReplace] using interleave_nil s
  | cons ph pt => exact replaceCore_self_bounded ph pt s.length s le_rfl

/-! ### Sorted-list lemmas -/

theorem sortDesc_pairwise (l : List Nat) :
    List.Pairwise (fun a b => b ≤ a) (sortDesc l) :=
  List.sorted_insertionSort (fun a b => b ≤ a) l

theorem mem_sortDesc {a : Nat} {l : List Nat} : a ∈ sortDesc l ↔ a ∈ l :=
  (List.perm_insertionSort (fun a b => b ≤ a) l).mem_iff

theorem sortDesc_nodup {l : List Nat} (h : l.Nodup) : (sortDesc l).Nodup :=
  ((List.perm_insertionSort (fun a b => b ≤ a) l).symm).nodup h

/-- On a descending list, `find? (· < fmt)` returns the greatest element
below `fmt` (when one exists). -/
theorem find_lt_of_greatest :
    ∀ (l : List Nat), List.Pairwise (fun a b => b ≤ a) l →
    ∀ (fmt k : Nat), k ∈ l → k < fmt → (∀ j ∈ l, j < fmt → j ≤ k) →
      l.find? (fun x => x < fmt) = some k := by
  intro l
  induction l with
  | nil =>
    intro _ fmt k hk
    simp at hk
  | cons h t ih =>
    intro hp fmt k hk hklt hmax
    rw [List.pairwise_cons] at hp
    by_cases hh : h < fmt
    · have h1 : h ≤ k := hmax h (List.mem_cons_self h t) hh
      have h2 : k ≤ h := by
        rcases List.mem_cons.mp hk with rfl | hkt
        · exact le_rfl
        · exact hp.1 k hkt
      rw [List.find?_cons_of_pos _ (by simpa using hh)]
      exact congrArg some (le_antisymm h1 h2)
    · have hkne : k ≠ h := fun hc => hh (hc ▸ hklt)
      have hkt : k ∈ t := by
        rcases List.mem_cons.mp hk with rfl | m
        · exact absurd rfl hkne
        · exact m
      rw [List.find?_cons_of_neg _ (by simpa using hh)]
      exact ih hp.2 fmt k hkt hklt
        (fun j hj hjlt => hmax j (List.mem_cons_of_mem h hj) hjlt)

/-- C6: the generated descriptor's `min_format` is the declared tier key
immediately below the format value (the tier key with the 0 → 1 bump) plus
one, or the format itself when no declared key lies below it; and
`max_format` is the format plus the configured buffer exactly when the format
value is the highest declared tier, the format alone otherwise (a zero/unset
buffer contributing nothing). -/
theorem c6_min_max_format (formats : List Nat) (max_format tier fmt : Nat)
    (htier : tier ∈ formats) (hfmt : fmt = if tier = 0 then 1 else tier) :
    (∀ k, k ∈ formats → k < fmt → (∀ j ∈ formats, j < fmt → j ≤ k) →
      (mcmetaFields formats max_format tier).2.1 = k + 1) ∧
    ((∀ k ∈ formats, ¬ k < fmt) → (mcmetaFields formats max_format tier).2.1 = fmt) ∧
    (fmt ∈ formats → (∀ x ∈ formats, x ≤ fmt) →
      (mcmetaFields formats max_format tier).2.2 = fmt + max_format) ∧
    ((¬ (fmt ∈ formats ∧ ∀ x ∈ formats, x ≤ fmt)) →
      (mcmetaFields formats max_format tier).2.2 = fmt) := by
  have hfields : mcmetaFields formats max_format tier =
      (fmt, get_min_fmt (sortDesc formats) fmt, get_max_fmt (sortDesc formats) max_format fmt) := by
    rw [hfmt]
    rfl
  have hpw := sortDesc_pairwise formats
  refine ⟨?_, ?_, ?_, ?_⟩
  · intro k hkmem hklt hmax
    rw [hfields]
    show get_min_fmt (sortDesc formats) fmt = k + 1
    rw [get_min_fmt, find_lt_of_greatest (sortDesc formats) hpw fmt k
      (mem_sortDesc.mpr hkmem) hklt
      (fun j hj hjlt => hmax j (mem_sortDesc.mp hj) hjlt)]
  · intro hnone
    rw [hfields]
    show get_min_fmt (sortDesc formats) fmt = fmt
    rw [get_min_fmt, List.find?_eq_none.mpr]
    intro x hx
    simpa using hnone x (mem_sortDesc.mp hx)
  · intro hmem hmax
    rw [hfields]
    show get_max_fmt (sortDesc formats) max_format fmt = fmt + max_format
    cases hl : sortDesc formats with
    | nil =>
      exact absurd (hl ▸ mem_sortDesc.mpr hmem) (List.not_mem_nil fmt)
    | cons h t =>
      have hh_mem : h ∈ formats := mem_sortDesc.mp (hl ▸ List.mem_cons_self h t)
      have hh_le : h ≤ fmt := hmax h hh_mem
      have hfmt_le : fmt ≤ h := by
        have hf : fmt ∈ h :: t := hl ▸ mem_sortDesc.mpr hmem
        rcases List.mem_cons.mp hf with rfl | hft
        · exact le_rfl
        · exact (List.pairwise_cons.mp (hl ▸ hpw)).1 fmt hft
      have : fmt = h := le_antisymm hfmt_le hh_le
      rw [get_max_fmt]
      simp only [List.head?_cons, this, if_pos rfl]
      by_cases hb : max_format = 0
      · simp [hb]
      · simp [hb]
  · intro hnot
    rw [hfields]
    show get_max_fmt (sortDesc formats) max_format fmt = fmt
    cases hl : sortDesc formats with
    | nil => rw [get_max_fmt]; simp
    | cons h t =>
      have hne : fmt ≠ h := by
        intro hc
        apply hnot
        subst hc
        constructor
        · exact mem_sortDesc.mp (hl ▸ List.mem_cons_self fmt t)
        · intro x hx
          have hx' : x ∈ fmt :: t := hl ▸ mem_sortDesc.mpr hx
          rcases List.mem_cons.mp hx' with rfl | hxt
          · exact le_rfl
          · exact (List.pairwise_cons.mp (hl ▸ hpw)).1 x hxt
      rw [get_max_fmt]
      simp only [List.head?_cons, if_neg hne]

/-- C6 witness: formats `[5, 3, 1]`, buffer 4, tier 3 (its format value is 3,
the key immediately below is 1, and 3 is not the highest declared tier). -/
theorem c6_min_max_format_witness :
    (mcmetaFields [5, 3, 1] 4 3).2.1 = 1 + 1 ∧ (mcmetaFields [5, 3, 1] 4 3).2.2 = 3 := by
  have h := c6_min_max_format [5, 3, 1] 4 3 3 (by decide) (by decide)
  exact ⟨h.1 1 (by decide) (by decide) (by decide), h.2.2.2 (by decide)⟩

/-- C7: a declared tier 0 produces descriptor fields with `format = 1` and
exactly the `min_format`/`max_format` a current format value 1 would get on
the same declared tier set. -/
theorem c7_tier0_as_tier1 (formats : List Nat) (max_format : Nat)
    (h0 : 0 ∈ formats) :
    mcmetaFields formats max_format 0 = mcmetaFields formats max_format 1 ∧
    (mcmetaFields formats max_format 0).1 = 1 :=
  ⟨rfl, rfl⟩

/-- C7 witness at formats `[5, 0]`. -/
theorem c7_tier0_as_tier1_witness :
    mcmetaFields [5, 0] 7 0 = mcmetaFields [5, 0] 7 1 ∧
    (mcmetaFields [5, 0] 7 0).1 = 1 :=
  c7_tier0_as_tier1 [5, 0] 7 (by decide)

/-- C10: a readonly SourceLoader rejects `__setitem__` and `update` with a
RuntimeError, leaving the stored mapping untouched; and before
`load_sources` completes, `__getitem__` raises for every key. -/
theorem c10_sourceloader_guards {α : Type} (s : SourceLoader α) (k : PathL)
    (v : α) (other : Dict PathL α) :
    (s.readonly = true →
      (s.setitem k v).1 = some readonlyMsg ∧ (s.setitem k v).2 = s ∧
      (s.updateDict other).1 = some readonlyMsg ∧ (s.updateDict other).2 = s) ∧
    (s.initial_load = false → s.getitem k = Except.error notLoadedMsg) := by
  refine ⟨fun h => ?_, fun h => ?_⟩
  · simp [SourceLoader.setitem, SourceLoader.updateDict, h]
  · simp [SourceLoader.getitem, h]

/-- C10 witness: a freshly initialized readonly loader. -/
theorem c10_sourceloader_guards_witness :
    (((SourceLoader.mkLoader Nat (pstr "src") true).setitem (pstr "a") 1).1 =
        some readonlyMsg ∧
      ((SourceLoader.mkLoader Nat (pstr "src") true).setitem (pstr "a") 1).2 =
        SourceLoader.mkLoader Nat (pstr "src") true ∧
      ((SourceLoader.mkLoader Nat (pstr "src") true).updateDict [(pstr "b", 2)]).1 =
        some readonlyMsg ∧
      ((SourceLoader.mkLoader Nat (pstr "src") true).updateDict [(pstr "b", 2)]).2 =
        SourceLoader.mkLoader Nat (pstr "src") true) ∧
    (SourceLoader.mkLoader Nat (pstr "src") true).getitem (pstr "a") =
      Except.error notLoadedMsg := by
  have h := c10_sourceloader_guards (SourceLoader.mkLoader Nat (pstr "src") true)
    (pstr "a") 1 [(pstr "b", 2)]
  exact ⟨h.1 rfl, h.2 rfl⟩

/-! ### Theme idempotence (C9) -/

theorem mem_dSet {κ α : Type} [DecidableEq κ] :
    ∀ {m : Dict κ α} {k : κ} {v : α} {kv : κ × α},
      kv ∈ dSet m k v → kv = (k, v) ∨ kv ∈ m
  | [], _, _, _, h => Or.inl (by simpa [dSet] using h)
  | e :: rest, k, v, kv, h => by
    by_cases he : e.1 = k
    · rw [dSet, if_pos he] at h
      rcases List.mem_cons.mp h with h1 | h2
      · exact Or.inl h1
      · exact Or.inr (List.mem_cons_of_mem e h2)
    · rw [dSet, if_neg he] at h
      rcases List.mem_cons.mp h with h1 | h2
      · exact Or.inr (h1 ▸ List.mem_cons_self e rest)
      · rcases mem_dSet h2 with h3 | h4
        · exact Or.inl h3
        · exact Or.inr (List.mem_cons_of_mem e h4)

/-- When the theme map coincides with the baseline map (and its keys are
distinct, the dict invariant), every collected substitution is an identity. -/
theorem buildColorMap_pairs_id (default_colors : Dict PathL PathL)
    (svg_content : PathL) (hnd : (dKeys default_colors).Nodup) :
    ∀ kv ∈ buildColorMap default_colors default_colors svg_content, kv.1 = kv.2 := by
  have aux : ∀ (entries : List (PathL × PathL)) (m₀ : Dict PathL PathL),
      (∀ e ∈ entries, e ∈ default_colors) → (∀ kv ∈ m₀, kv.1 = kv.2) →
      ∀ kv ∈ entries.foldl (fun m kv =>
        if dMem default_colors kv.1 && strContains svg_content kv.2 then
          dSet m (lowerL kv.2) (lowerL ((dGet default_colors kv.1).getD []))
        else dSet m (lowerL kv.2) (lowerL kv.2)) m₀, kv.1 = kv.2 := by
    intro entries
    induction entries with
    | nil => intro m₀ _ hm₀ kv hkv; exact hm₀ kv hkv
    | cons e rest ih =>
      intro m₀ hmem hm₀ kv hkv
      rw [List.foldl_cons] at hkv
      refine ih _ (fun x hx => hmem x (List.mem_cons_of_mem e hx)) ?_ kv hkv
      intro kv' hkv'
      by_cases hc : (dMem default_colors e.1 && strContains svg_content e.2) = true
      · rw [if_pos hc] at hkv'
        rcases mem_dSet hkv' with h1 | h2
        · have hget : dGet default_colors e.1 = some e.2 :=
            dGet_eq_some_of_mem_nodup hnd (hmem e (List.mem_cons_self e rest))
          rw [h1]
          simp [hget]
        · exact hm₀ kv' h2
      · rw [if_neg hc] at hkv'
        rcases mem_dSet hkv' with h1 | h2
        · rw [h1]
        · exact hm₀ kv' h2
  intro kv hkv
  exact aux default_colors [] (fun e he => he) (by simp) kv hkv

/-- Folding identity substitutions over a text leaves it unchanged. -/
theorem foldl_pyReplace_id (m : Dict PathL PathL) (c : PathL)
    (h : ∀ kv ∈ m, kv.1 = kv.2) :
    m.foldl (fun s kv => pyReplace s kv.1 kv.2) c = c := by
  induction m generalizing c with
  | nil => rfl
  | cons e rest ih =>
    rw [List.foldl_cons]
    have he : e.1 = e.2 := h e (List.mem_cons_self e rest)
    rw [← he, pyReplace_self]
    exact ih c (fun kv hkv => h kv (List.mem_cons_of_mem e hkv))

/-- C9: theme substitution with a theme identical to the baseline color map
leaves every file's content unchanged. -/
theorem c9_theme_identity (default_colors : Dict PathL PathL)
    (src_files : Dict PathL PathL) (hnd : (dKeys default_colors).Nodup) :
    apply_theme default_colors default_colors src_files = src_files := by
  rw [apply_theme]
  have step : ∀ (ks : List PathL), (∀ k ∈ ks, (dGet src_files k).isSome) →
      ks.foldl (fun st rel_path =>
        if endsWithL (lowerL rel_path) (pstr ".svg") then
          match dGet st rel_path with
          | none => st
          | some svg_content =>
            let m := buildColorMap default_colors default_colors svg_content
            let themed := m.foldl (fun s kv => pyReplace s kv.1 kv.2) svg_content
            dSet st rel_path themed
        else st) src_files = src_files := by
    intro ks
    induction ks with
    | nil => intro _; rfl
    | cons k rest ih =>
      intro hks
      rw [List.foldl_cons]
      have hone : (if endsWithL (lowerL k) (pstr ".svg") then
          match dGet src_files k with
          | none => src_files
          | some svg_content =>
            let m := buildColorMap default_colors default_colors svg_content
            let themed := m.foldl (fun s kv => pyReplace s kv.1 kv.2) svg_content
            dSet src_files k themed
        else src_files) = src_files := by
        by_cases hsvg : endsWithL (lowerL k) (pstr ".svg") = true
        · rw [if_pos hsvg]
          have hk := hks k (List.mem_cons_self k rest)
          cases hget : dGet src_files k with
          | none => rfl
          | some svg_content =>
            simp only []
            rw [foldl_pyReplace_id _ _ (buildColorMap_pairs_id default_colors svg_content hnd)]
            exact dSet_eq_self_of_dGet hget
        · rw [if_neg hsvg]
      rw [hone]
      exact ih (fun k' hk' => hks k' (List.mem_cons_of_mem k hk'))
  apply step
  intro k hk
  rw [dKeys] at hk
  obtain ⟨e, he, hek⟩ := List.mem_map.mp hk
  exact hek ▸ dGet_isSome_of_mem (by simpa using he)

/-- C9 witness: a concrete baseline map applied to a concrete store. -/
theorem c9_theme_identity_witness :
    apply_theme [(pstr "primary", pstr "#AABBCC")] [(pstr "primary", pstr "#AABBCC")]
      [(pstr "i.svg", pstr "fill=#aabbcc stroke=#AABBCC")] =
      [(pstr "i.svg", pstr "fill=#aabbcc stroke=#AABBCC")] :=
  c9_theme_identity [(pstr "primary", pstr "#AABBCC")]
    [(pstr "i.svg", pstr "fill=#aabbcc stroke=#AABBCC")] (by decide)

/-! ### Archive allow-list (C2) and duplicate detection (C5) -/

theorem scaleNoneKey :
    pstr "scale_" ++ pstr "None" ++ pstr ".png" = pstr "scale_None.png" := by decide

/-- The src_files pass of create_zip_archive appends exactly the entries
whose paths pass the `allowedMatch` test, in order. -/
theorem zip_store_fold {α : Type} (allowed : List PathL) :
    ∀ (entries : List (PathL × α)) (st : ZipState α),
      (entries.foldl (fun st kv =>
        if allowedMatch allowed kv.1 then
          ZipState.mk (st.written ++ [kv]) (st.added_files_in_zip ++ [kv.1])
            st.duplicate_png_errors
        else st) st) =
      ZipState.mk (st.written ++ entries.filter (fun kv => allowedMatch allowed kv.1))
        (st.added_files_in_zip ++
          (entries.filter (fun kv => allowedMatch allowed kv.1)).map Prod.fst)
        st.duplicate_png_errors := by
  intro entries
  induction entries with
  | nil => intro st; simp
  | cons e rest ih =>
    intro st
    rw [List.foldl_cons]
    by_cases he : allowedMatch allowed e.1 = true
    · rw [if_pos he, ih]
      simp [List.filter_cons, he]
    · rw [if_neg he, ih]
      simp [List.filter_cons, he]

/-- C2 counterexample: with allowed prefixes `["assets"]` the code writes
`"assetsx/a.json"` into the archive, although that path neither equals
`"assets"` nor starts with `"assets/"` - refuting the claimed
exact-or-`prefix+"/"` match. -/
theorem c2_counterexample :
    (create_zip_archive [pstr "assets"] [] none none
      [(pstr "assetsx/a.json", (0 : Nat))] []).written =
      [(pstr "assetsx/a.json", 0)] ∧
    ¬((pstr "assetsx/a.json" : PathL) = pstr "assets" ∨
      pstartsWith (pstr "assetsx/a.json") (pstr "assets" ++ pstr "/") = true) := by
  constructor
  · decide
  · decide

/-- C2 (amended): a src_files entry is written into the archive exactly when
its path equals an allowed path or starts with it as a plain string
(no `/` separator is required after it); the archive's src_files section is
that filter, in store order.  Stated for archives without a scale dimension
and without a configured license, and with no `scale_None.png` icon entry. -/
theorem c2_allowlist_plain (allowed : List PathL) (sorted_scales : Dict Nat Nat)
    {α : Type} (src_files : Dict PathL α) (gen_images : Dict Nat (Dict PathL α))
    (hicon : dGet src_files (pstr "scale_None.png") = none) :
    (create_zip_archive allowed sorted_scales none none src_files gen_images).written =
      src_files.filter (fun kv => allowedMatch allowed kv.1) := by
  rw [create_zip_archive]
  simp only [scaleNoneKey, hicon]
  rw [zip_store_fold]
  simp

/-- C2 witness: allowed `["assets"]`, store `{"assets/a.json", "other/b.json"}`
yields an archive containing only `"assets/a.json"`. -/
theorem c2_allowlist_plain_witness :
    (create_zip_archive [pstr "assets"] [] none none
      [(pstr "assets/a.json", (1 : Nat)), (pstr "other/b.json", 2)] []).written =
      [(pstr "assets/a.json", 1)] := by
  rw [c2_allowlist_plain [pstr "assets"] []
    [(pstr "assets/a.json", (1 : Nat)), (pstr "other/b.json", 2)] [] (by decide)]
  decide

/-! ### ResolutionTagger directory validation (C3) -/

/-- C3: evaluation of ProxyLoader's directory-boundary validation at the
failing inputs.  (i) A directory match that begins at the start of the path
(`"32/a.png"`, match at index 0) is recorded as an InvalidResolutionDirectory
error and excluded from the map, although the claim requires acceptance (the
code compares `match.start(0)` to 1, and `match.string[start_span - 1]` wraps
to the last character).  (ii) Two paths sharing the invalid directory prefix
`"a/x32/"` leave a record with `filecount = 1` (the second re-records,
because the dedupe test checks membership among the error category names),
although the claim requires the count to reach 2.  (iii) A match at index 1
inside the directory name `"x32"` is accepted into the map, although the
claim requires an error record. -/
theorem c3_dir_validation_eval :
    (dGet (proxyLoaderInit [(pstr "32/a.png", [RMatch.mk 0 (pstr "32/") 32])]).invalidDir
        (pstr "32/") = some (DirErrRecord.mk 1 (pstr "32/a.png") []) ∧
      (proxyLoaderInit [(pstr "32/a.png", [RMatch.mk 0 (pstr "32/") 32])]).proxy = []) ∧
    (proxyLoaderInit [(pstr "a/x32/f1.png", [RMatch.mk 3 (pstr "32/") 32]),
        (pstr "a/x32/f2.png", [RMatch.mk 3 (pstr "32/") 32])]).invalidDir =
      [(pstr "a/x32/", DirErrRecord.mk 1 (pstr "a/x32/f2.png") (pstr "x32/"))] ∧
    ((proxyLoaderInit [(pstr "x32/a.png", [RMatch.mk 1 (pstr "32/") 32])]).invalidDir = [] ∧
      dGet (proxyLoaderInit [(pstr "x32/a.png", [RMatch.mk 1 (pstr "32/") 32])]).proxy
        (pstr "xa.png") = some [(32, pstr "x32/a.png")]) := by
  exact ⟨⟨by decide, by decide⟩, by decide, by decide, by decide⟩

/-! ### Rasterizer sizing (C8) -/

theorem pyInt_eq_floor (q : ℚ) (h : 0 ≤ q) : pyInt q = ⌊q⌋ := by
  rw [pyInt, Int.tdiv_eq_ediv (Rat.num_nonneg.mpr h) (Int.ofNat_nonneg q.den),
    Rat.floor_def]

/-- C8: the rasterizer computes target dimensions
`floor(original_dimension * dpi / 96)` (exact arithmetic; the Python source
computes the same quantity with binary floats), and on the example store
`{"a.svg": <svg width=100 height=50>}` at DPI 192 it removes the vector
entry and stores the 200x100 bitmap under `gen_images[192]["a.png"]`. -/
theorem c8_raster_scaling :
    (∀ (w : ℚ) (dpi : Nat), 0 ≤ w →
      pyInt (w * ((dpi : ℚ) / 96)) = ⌊w * dpi / 96⌋) ∧
    (∀ (α : Type) (render : α → ℤ → ℤ → α) (svg : α) (sc : Nat),
      convert_svg_to_png (fun _ => some ((100 : ℚ), 50)) render [(sc, 192)]
        [(pstr "a.svg", svg)] =
        ([], [(192, [(pstr "a.png", render svg 200 100)])])) := by
  constructor
  · intro w dpi hw
    rw [pyInt_eq_floor _ (by positivity)]
    congr 1
    ring
  · intro α render svg sc
    have h200 : pyInt ((100 : ℚ) * (((192 : ℕ) : ℚ) / 96)) = 200 := by norm_num [pyInt]
    have h100 : pyInt ((50 : ℚ) * (((192 : ℕ) : ℚ) / 96)) = 100 := by norm_num [pyInt]
    calc convert_svg_to_png (fun _ => some ((100 : ℚ), 50)) render [(sc, 192)]
          [(pstr "a.svg", svg)]
        = ([], [(192, [(pstr "a.png",
            render svg (pyInt ((100 : ℚ) * (((192 : ℕ) : ℚ) / 96)))
              (pyInt ((50 : ℚ) * (((192 : ℕ) : ℚ) / 96))))])]) := rfl
      _ = ([], [(192, [(pstr "a.png", render svg 200 100)])]) := by rw [h200, h100]

/-- C8 witness: width 100 at DPI 192 gives exactly 200 target pixels. -/
theorem c8_raster_scaling_witness :
    pyInt ((100 : ℚ) * (((192 : ℕ) : ℚ) / 96)) = ⌊(100 : ℚ) * ((192 : ℕ) : ℚ) / 96⌋ ∧
    ⌊(100 : ℚ) * ((192 : ℕ) : ℚ) / 96⌋ = 200 :=
  ⟨c8_raster_scaling.1 100 192 (by norm_num), by norm_num⟩

theorem dMem_iff_mem_keys {κ α : Type} [DecidableEq κ] :
    ∀ {d : Dict κ α} {k : κ}, dMem d k = true ↔ k ∈ dKeys d
  | [], k => by simp [dMem, dGet, dKeys]
  | e :: rest, k => by
    by_cases he : e.1 = k
    · simp [dMem, dGet, dKeys, he]
    · rw [dMem, dGet, if_neg he]
      rw [dKeys, List.map_cons, List.mem_cons]
      constructor
      · intro h
        exact Or.inr (dMem_iff_mem_keys.mp h)
      · intro h
        rcases h with h | h
        · exact absurd h.symm he
        · exact dMem_iff_mem_keys.mpr h

theorem contains_append_single_ne {a : List PathL} {x y : PathL} (h : y ≠ x) :
    (a ++ [x]).contains y = a.contains y := by
  induction a with
  | nil =>
    have hyx : (y == x) = false := beq_eq_false_iff_ne.mpr h
    simp [List.contains, List.elem, hyx]
  | cons b bs ih =>
    show List.elem y (b :: (bs ++ [x])) = List.elem y (b :: bs)
    rw [List.elem_cons, List.elem_cons]
    cases hyb : y == b
    · exact ih
    · rfl

/-- With distinct keys, an entry present in the dict is exactly what a filter
by its key returns. -/
theorem filter_key_singleton {α : Type} :
    ∀ {l : Dict PathL α} {k : PathL} {v : α}, (dKeys l).Nodup → (k, v) ∈ l →
      l.filter (fun e => e.1 == k) = [(k, v)]
  | [], _, _, _, h => by simp at h
  | e :: rest, k, v, hnd, h => by
    rw [dKeys, List.map_cons, List.nodup_cons] at hnd
    by_cases he : e.1 = k
    · have hev : e = (k, v) := by
        rcases List.mem_cons.mp h with h1 | h2
        · exact h1.symm
        · exact absurd (he ▸ List.mem_map_of_mem Prod.fst h2) hnd.1
      rw [List.filter_cons, if_pos (by simp [he]), hev,
        List.filter_eq_nil_iff.mpr]
      intro a ha hak
      rw [beq_iff_eq] at hak
      exact hnd.1 (by rw [he, ← hak]; exact List.mem_map_of_mem Prod.fst ha)
    · have h2 : (k, v) ∈ rest := by
        rcases List.mem_cons.mp h with h1 | h2
        · exact absurd (congrArg Prod.fst h1.symm) he
        · exact h2
      rw [List.filter_cons, if_neg (by simp [he])]
      exact filter_key_singleton hnd.2 h2

/-- The gen_images pass of create_zip_archive: allowed bitmap paths already
in the added set each record one duplicate_png error and are dropped; the
rest are appended. -/
theorem zip_gen_fold {α : Type} (allowed : List PathL) :
    ∀ (entries : List (PathL × α)) (st : ZipState α), (dKeys entries).Nodup →
      (entries.foldl (fun st kv =>
        if allowedMatch allowed kv.1 then
          if st.added_files_in_zip.contains kv.1 then
            ZipState.mk st.written st.added_files_in_zip (st.duplicate_png_errors + 1)
          else
            ZipState.mk (st.written ++ [kv]) (st.added_files_in_zip ++ [kv.1])
              st.duplicate_png_errors
        else st) st) =
      ZipState.mk
        (st.written ++ entries.filter (fun kv =>
          allowedMatch allowed kv.1 && !(st.added_files_in_zip.contains kv.1)))
        (st.added_files_in_zip ++ (entries.filter (fun kv =>
          allowedMatch allowed kv.1 && !(st.added_files_in_zip.contains kv.1))).map Prod.fst)
        (st.duplicate_png_errors + (entries.filter (fun kv =>
          allowedMatch allowed kv.1 && st.added_files_in_zip.contains kv.1)).length) := by
  intro entries
  induction entries with
  | nil => intro st _; simp
  | cons e rest ih =>
    intro st hnd
    rw [dKeys, List.map_cons, List.nodup_cons] at hnd
    rw [List.foldl_cons]
    by_cases ha : allowedMatch allowed e.1 = true
    · by_cases hc : st.added_files_in_zip.contains e.1 = true
      · have hmem : e.1 ∈ st.added_files_in_zip := List.elem_iff.mp hc
        rw [if_pos ha, if_pos hc, ih _ hnd.2]
        dsimp only
        have hf1 : (e :: rest).filter (fun kv =>
            allowedMatch allowed kv.1 && !(st.added_files_in_zip.contains kv.1)) =
            rest.filter (fun kv =>
            allowedMatch allowed kv.1 && !(st.added_files_in_zip.contains kv.1)) := by
          rw [List.filter_cons, if_neg (by simp [ha]; exact hmem)]
        have hf2 : (e :: rest).filter (fun kv =>
            allowedMatch allowed kv.1 && st.added_files_in_zip.contains kv.1) =
            e :: rest.filter (fun kv =>
            allowedMatch allowed kv.1 && st.added_files_in_zip.contains kv.1) := by
          rw [List.filter_cons, if_pos (by simp [ha]; exact hmem)]
        rw [hf1, hf2, List.length_cons]
        exact congrArg (ZipState.mk _ _) (by omega)
      · rw [if_pos ha, if_neg hc, ih _ hnd.2]
        dsimp only
        rw [Bool.not_eq_true] at hc
        have hcongr1 : rest.filter (fun kv =>
            allowedMatch allowed kv.1 && !((st.added_files_in_zip ++ [e.1]).contains kv.1)) =
            rest.filter (fun kv =>
            allowedMatch allowed kv.1 && !(st.added_files_in_zip.contains kv.1)) := by
          apply List.filter_congr'
          intro a hamem
          have : a.1 ≠ e.1 := by
            intro hcc
            exact hnd.1 (hcc ▸ List.mem_map_of_mem Prod.fst hamem)
          rw [contains_append_single_ne this]
        have hcongr2 : rest.filter (fun kv =>
            allowedMatch allowed kv.1 && (st.added_files_in_zip ++ [e.1]).contains kv.1) =
            rest.filter (fun kv =>
            allowedMatch allowed kv.1 && st.added_files_in_zip.contains kv.1) := by
          apply List.filter_congr'
          intro a hamem
          have : a.1 ≠ e.1 := by
            intro hcc
            exact hnd.1 (hcc ▸ List.mem_map_of_mem Prod.fst hamem)
          rw [contains_append_single_ne this]
        rw [hcongr1, hcongr2]
        simp only [List.filter_cons, ha, hc, Bool.not_false, Bool.and_true,
          Bool.and_false, if_pos rfl, if_neg (by simp : ¬(false = true))]
        simp [List.append_assoc]
    · rw [if_neg ha, ih _ hnd.2]
      simp [List.filter_cons, ha]

/-- C5: when a store path and a bitmap path for the archive's DPI collide and
pass the allow-list, exactly one entry is written at that path (the store's
content; the bitmap is dropped, not merged or overwritten), and the
duplicate_png tally counts exactly one error per such collision.  Stated for
archives without a configured license and without a scale icon entry. -/
theorem c5_duplicate_detection {α : Type} (allowed : List PathL)
    (sorted_scales : Dict Nat Nat) (sc : Nat) (src_files : Dict PathL α)
    (gen_images : Dict Nat (Dict PathL α)) (pngs : Dict PathL α) (q : PathL) (v : α)
    (hdpi : dGet gen_images ((dGet sorted_scales sc).getD 0) = some pngs)
    (hndsrc : (dKeys src_files).Nodup) (hndpng : (dKeys pngs).Nodup)
    (hicon : dGet src_files (pstr "scale_" ++ natStr sc ++ pstr ".png") = none)
    (hq_src : dGet src_files q = some v) (hq_png : dMem pngs q = true)
    (hq_allow : allowedMatch allowed q = true) :
    ((create_zip_archive allowed sorted_scales (some sc) none src_files
        gen_images).written.filter (fun e => e.1 == q)) = [(q, v)] ∧
    (create_zip_archive allowed sorted_scales (some sc) none src_files
        gen_images).duplicate_png_errors =
      (pngs.filter (fun kv =>
        allowedMatch allowed kv.1 && dMem src_files kv.1)).length := by
  have hqv_mem : (q, v) ∈ src_files := mem_of_dGet_eq_some hq_src
  have hres : create_zip_archive allowed sorted_scales (some sc) none src_files
      gen_images =
      ZipState.mk
        (src_files.filter (fun kv => allowedMatch allowed kv.1) ++
          pngs.filter (fun kv => allowedMatch allowed kv.1 &&
            !(((src_files.filter (fun kv => allowedMatch allowed kv.1)).map
              Prod.fst).contains kv.1)))
        ((src_files.filter (fun kv => allowedMatch allowed kv.1)).map Prod.fst ++
          (pngs.filter (fun kv => allowedMatch allowed kv.1 &&
            !(((src_files.filter (fun kv => allowedMatch allowed kv.1)).map
              Prod.fst).contains kv.1))).map Prod.fst)
        (0 + (pngs.filter (fun kv => allowedMatch allowed kv.1 &&
          ((src_files.filter (fun kv => allowedMatch allowed kv.1)).map
            Prod.fst).contains kv.1)).length) := by
    rw [create_zip_archive, hicon, hdpi]
    dsimp only
    rw [zip_store_fold, zip_gen_fold allowed pngs _ hndpng]
    dsimp only
    rw [List.nil_append, List.nil_append]
  have hadded_q : ((src_files.filter (fun kv => allowedMatch allowed kv.1)).map
      Prod.fst).contains q = true := by
    rw [List.elem_iff]
    exact List.mem_map_of_mem Prod.fst
      (List.mem_filter.mpr ⟨hqv_mem, hq_allow⟩)
  have hstore_nodup : (dKeys (src_files.filter
      (fun kv => allowedMatch allowed kv.1))).Nodup :=
    ((List.filter_sublist src_files).map Prod.fst).nodup hndsrc
  constructor
  · rw [hres]
    show ((src_files.filter (fun kv => allowedMatch allowed kv.1) ++ _).filter
      (fun e => e.1 == q)) = [(q, v)]
    rw [List.filter_append]
    have h1 : (src_files.filter (fun kv => allowedMatch allowed kv.1)).filter
        (fun e => e.1 == q) = [(q, v)] :=
      filter_key_singleton hstore_nodup (List.mem_filter.mpr ⟨hqv_mem, hq_allow⟩)
    have h2 : (pngs.filter (fun kv => allowedMatch allowed kv.1 &&
        !(((src_files.filter (fun kv => allowedMatch allowed kv.1)).map
          Prod.fst).contains kv.1))).filter (fun e => e.1 == q) = [] := by
      rw [List.filter_eq_nil_iff]
      intro a ha hak
      rw [beq_iff_eq] at hak
      have := (List.mem_filter.mp ha).2
      rw [hak, hadded_q] at this
      simp at this
    rw [h1, h2, List.append_nil]
  · rw [hres]
    show 0 + (pngs.filter _).length = _
    rw [Nat.zero_add]
    congr 1
    apply List.filter_congr'
    intro kv hkv
    by_cases hal : allowedMatch allowed kv.1 = true
    · simp only [hal, Bool.true_and]
      by_cases hmemkeys : kv.1 ∈ dKeys src_files
      · have hmem_store : kv.1 ∈ (src_files.filter
            (fun kv => allowedMatch allowed kv.1)).map Prod.fst := by
          obtain ⟨e, he, hek⟩ := List.mem_map.mp hmemkeys
          exact hek ▸ List.mem_map_of_mem Prod.fst
            (List.mem_filter.mpr ⟨he, by rw [show e.1 = kv.1 from hek]; exact hal⟩)
        have hcq : ((src_files.filter (fun kv => allowedMatch allowed kv.1)).map
            Prod.fst).contains kv.1 = true := List.elem_iff.mpr hmem_store
        rw [hcq, dMem_iff_mem_keys.mpr hmemkeys]
      · have h1 : ((src_files.filter (fun kv => allowedMatch allowed kv.1)).map
            Prod.fst).contains kv.1 = false := by
          by_contra hcc
          rw [Bool.not_eq_false] at hcc
          have := List.elem_iff.mp hcc
          obtain ⟨e, he, hek⟩ := List.mem_map.mp this
          exact hmemkeys (hek ▸ List.mem_map_of_mem Prod.fst
            (List.mem_filter.mp he).1)
        have h2 : dMem src_files kv.1 = false := by
          by_contra hcc
          rw [Bool.not_eq_false] at hcc
          exact hmemkeys (dMem_iff_mem_keys.mp hcc)
        rw [h1, h2]
    · simp only [Bool.not_eq_true] at hal
      rw [hal, Bool.false_and, Bool.false_and]

/-- C5 witness: one colliding path, one written entry, one duplicate error. -/
theorem c5_duplicate_detection_witness :
    ((create_zip_archive [pstr "assets"] [(2, 192)] (some 2) none
        [(pstr "assets/a.png", (1 : Nat))]
        [(192, [(pstr "assets/a.png", 9)])]).written.filter
      (fun e => e.1 == pstr "assets/a.png")) = [(pstr "assets/a.png", 1)] ∧
    (create_zip_archive [pstr "assets"] [(2, 192)] (some 2) none
        [(pstr "assets/a.png", (1 : Nat))]
        [(192, [(pstr "assets/a.png", 9)])]).duplicate_png_errors = 1 := by
  have h := c5_duplicate_detection [pstr "assets"] [(2, 192)] 2
    [(pstr "assets/a.png", (1 : Nat))] [(192, [(pstr "assets/a.png", 9)])]
    [(pstr "assets/a.png", 9)] (pstr "assets/a.png") 1
    (by decide) (by decide) (by decide) (by decide) (by decide) (by decide)
    (by decide)
  refine ⟨h.1, ?_⟩
  rw [h.2]
  decide

/-! ### Tier loop order and cumulative state (C1) -/

theorem format_loop_append {α : Type} (parse : α → List PathL)
    (mkMeta : Nat → Nat → Option Nat → α) (scaleKeys : List Nat)
    (sorted_formats : List Nat) :
    ∀ (l₁ l₂ : List Nat) (st : Dict PathL α × Dict Nat (Dict PathL α)),
      format_loop parse mkMeta scaleKeys sorted_formats (l₁ ++ l₂) st =
        format_loop parse mkMeta scaleKeys sorted_formats l₂
          (format_loop parse mkMeta scaleKeys sorted_formats l₁ st) := by
  intro l₁
  induction l₁ with
  | nil => intro l₂ st; rfl
  | cons f rest ih =>
    intro l₂ st
    rw [List.cons_append, format_loop, format_loop]
    exact ih l₂ _

/-- C1: genscript's main loop processes the declared formats in strictly
descending key order, and the state every tier iteration operates on is the
one shared state produced by folding `format_iteration` (exclusions, then
inclusions, then mcmeta regeneration) over all earlier (higher) tiers - no
snapshot or restore between tiers. -/
theorem c1_descending_cumulative_fold {α : Type} (parse : α → List PathL)
    (mkMeta : Nat → Nat → Option Nat → α) (scaleKeys : List Nat)
    (formats : List Nat) (st : Dict PathL α × Dict Nat (Dict PathL α))
    (hnd : formats.Nodup) :
    List.Pairwise (fun a b => a > b) (sortDesc formats) ∧
    (∀ l₁ l₂, sortDesc formats = l₁ ++ l₂ →
      process_formats parse mkMeta scaleKeys formats st =
        format_loop parse mkMeta scaleKeys (sortDesc formats) l₂
          (format_loop parse mkMeta scaleKeys (sortDesc formats) l₁ st)) ∧
    (∀ (f : Nat) (rest : List Nat) (st' : Dict PathL α × Dict Nat (Dict PathL α)),
      format_loop parse mkMeta scaleKeys (sortDesc formats) (f :: rest) st' =
        format_loop parse mkMeta scaleKeys (sortDesc formats) rest
          (format_iteration parse mkMeta scaleKeys (sortDesc formats) f st')) := by
  refine ⟨?_, ?_, ?_⟩
  · have hsorted := sortDesc_pairwise formats
    have hnodup := sortDesc_nodup hnd
    have hand := List.Pairwise.and hsorted hnodup
    exact hand.imp (fun hab => lt_of_le_of_ne hab.1 (Ne.symm hab.2))
  · intro l₁ l₂ hsplit
    rw [process_formats, hsplit, format_loop_append]
  · intro f rest st'
    rfl

/-- C1 witness: declared formats `{1, 3, 5}` are processed as `[5, 3, 1]`,
and tier 3's iteration receives exactly the state tier 5's iteration
produced from the initial state. -/
theorem c1_descending_cumulative_fold_witness :
    sortDesc [1, 3, 5] = [5, 3, 1] ∧
    List.Pairwise (fun a b => a > b) (sortDesc [1, 3, 5]) ∧
    process_formats (fun _ : Nat => []) (fun _ _ _ => 0) [] [1, 3, 5] ([], []) =
      format_loop (fun _ : Nat => []) (fun _ _ _ => 0) [] (sortDesc [1, 3, 5]) [3, 1]
        (format_iteration (fun _ : Nat => []) (fun _ _ _ => 0) []
          (sortDesc [1, 3, 5]) 5 ([], [])) := by
  have h := c1_descending_cumulative_fold (fun _ : Nat => [])
    (fun _ _ _ => (0 : Nat)) [] [1, 3, 5] ([], []) (by decide)
  refine ⟨by decide, h.1, ?_⟩
  rw [h.2.1 [5] [3, 1] (by decide)]
  rfl

/-! ### Tier inclusion overlay (C4) -/

theorem pstartsWith_append_of_drop {s p : PathL} (hp : pstartsWith s p = true)
    (hq : pstartsWith (s.drop p.length) p = true) :
    pstartsWith s (p ++ p) = true := by
  have hs := append_drop_of_pstartsWith hp
  have hd := append_drop_of_pstartsWith hq
  calc pstartsWith s (p ++ p)
      = pstartsWith ((p ++ p) ++ (s.drop p.length).drop p.length) (p ++ p) := by
        rw [List.append_assoc, hd, hs]
    _ = true := pstartsWith_append _ _

theorem dSet_dSet {κ α : Type} [DecidableEq κ] :
    ∀ (d : Dict κ α) (k : κ) (v w : α), dSet (dSet d k v) k w = dSet d k w
  | [], k, v, w => by simp [dSet]
  | e :: rest, k, v, w => by
    by_cases he : e.1 = k
    · simp [dSet, he]
    · simp [dSet, he, dSet_dSet rest k v w]

theorem dGet_eq_none_of_not_mem_keys {κ α : Type} [DecidableEq κ]
    {d : Dict κ α} {k : κ} (h : k ∉ dKeys d) : dGet d k = none := by
  cases hg : dGet d k with
  | none => rfl
  | some v =>
    exact absurd (dMem_iff_mem_keys.mp (by rw [dMem, hg]; rfl)) h

/-- After folding the subtree moves, every tier-folder path is gone. -/
theorem incl_fold_get_pfx {α : Type} (inc : PathL) :
    ∀ (L : List (PathL × α)) (st : Dict PathL α),
      (∀ kv ∈ L, pstartsWith kv.1 inc = true) →
      (∀ kv ∈ L, pstartsWith (kv.1.drop inc.length) inc = false) →
      ∀ q, pstartsWith q inc = true →
        dGet (L.foldl (inclusionStep inc.length) st) q =
          (if q ∈ dKeys L then none else dGet st q) := by
  intro L
  induction L with
  | nil =>
    intro st _ _ q _
    simp [dKeys]
  | cons e rest ih =>
    intro st hpfx hstrip q hq
    rw [List.foldl_cons]
    by_cases hqe : q = e.1
    · have hfin : dGet (rest.foldl (inclusionStep inc.length)
          (inclusionStep inc.length st e)) q = (if q ∈ dKeys rest then none
            else dGet (inclusionStep inc.length st e) q) :=
        ih _ (fun kv h => hpfx kv (List.mem_cons_of_mem e h))
          (fun kv h => hstrip kv (List.mem_cons_of_mem e h)) q hq
      rw [hfin]
      have hq_mem : q ∈ dKeys (e :: rest) := by
        rw [dKeys, List.map_cons, hqe]
        exact List.mem_cons_self _ _
      rw [if_pos hq_mem]
      by_cases hqr : q ∈ dKeys rest
      · rw [if_pos hqr]
      · rw [if_neg hqr, inclusionStep, hqe, dGet_dDel_self]
    · have hstep : dGet (inclusionStep inc.length st e) q = dGet st q := by
        have he1q : e.1 ≠ q := fun hc => hqe hc.symm
        have hne : e.1.drop inc.length ≠ q := by
          intro hc
          have h1 := hstrip e (List.mem_cons_self e rest)
          rw [hc, hq] at h1
          exact Bool.noConfusion h1
        rw [inclusionStep, dGet_dDel_ne _ he1q, dGet_dSet_ne _ _ hne]
      have hfin := ih (inclusionStep inc.length st e)
        (fun kv h => hpfx kv (List.mem_cons_of_mem e h))
        (fun kv h => hstrip kv (List.mem_cons_of_mem e h)) q hq
      rw [hfin, hstep]
      by_cases hqr : q ∈ dKeys rest
      · rw [if_pos hqr,
          if_pos (show q ∈ dKeys (e :: rest) from List.mem_cons_of_mem _ hqr)]
      · have hnot : ¬(q ∈ dKeys (e :: rest)) := by
          intro hc
          rcases List.mem_cons.mp hc with h1 | h2
          · exact hqe h1
          · exact hqr h2
        rw [if_neg hqr, if_neg hnot]

/-- Paths that are neither tier-prefixed nor the strip of a moved entry are
untouched by the fold. -/
theorem incl_fold_get_other {α : Type} (inc : PathL) :
    ∀ (L : List (PathL × α)) (st : Dict PathL α),
      (∀ kv ∈ L, pstartsWith kv.1 inc = true) →
      ∀ q, pstartsWith q inc = false →
        (∀ kv ∈ L, kv.1.drop inc.length ≠ q) →
        dGet (L.foldl (inclusionStep inc.length) st) q = dGet st q := by
  intro L
  induction L with
  | nil => intro st _ q _ _; rfl
  | cons e rest ih =>
    intro st hpfx q hq hne
    rw [List.foldl_cons,
      ih _ (fun kv h => hpfx kv (List.mem_cons_of_mem e h)) q hq
        (fun kv h => hne kv (List.mem_cons_of_mem e h))]
    rw [inclusionStep]
    have hqe : e.1 ≠ q := by
      intro hc
      have h1 := hpfx e (List.mem_cons_self e rest)
      rw [hc, hq] at h1
      exact Bool.noConfusion h1
    rw [dGet_dDel_ne _ hqe, dGet_dSet_ne _ _ (hne e (List.mem_cons_self e rest))]

/-- Each moved entry's stripped path holds that entry's content afterwards. -/
theorem incl_fold_get_strip {α : Type} (inc : PathL) :
    ∀ (L : List (PathL × α)) (st : Dict PathL α),
      (∀ kv ∈ L, pstartsWith kv.1 inc = true) →
      (∀ kv ∈ L, pstartsWith (kv.1.drop inc.length) inc = false) →
      (dKeys L).Nodup →
      ∀ kv ∈ L, dGet (L.foldl (inclusionStep inc.length) st) (kv.1.drop inc.length) =
        some kv.2 := by
  intro L
  induction L with
  | nil => intro st _ _ _ kv h; simp at h
  | cons e rest ih =>
    intro st hpfx hstrip hnd kv hkv
    rw [dKeys, List.map_cons, List.nodup_cons] at hnd
    rw [List.foldl_cons]
    rcases List.mem_cons.mp hkv with rfl | hkv_rest
    · have hne_strip : ∀ kv' ∈ rest, kv'.1.drop inc.length ≠ kv.1.drop inc.length := by
        intro kv' h' hc
        have h1 := append_drop_of_pstartsWith (hpfx kv' (List.mem_cons_of_mem _ h'))
        have h2 := append_drop_of_pstartsWith (hpfx kv (List.mem_cons_self _ _))
        have : kv'.1 = kv.1 := by rw [← h1, ← h2, hc]
        exact hnd.1 (this ▸ List.mem_map_of_mem Prod.fst h')
      rw [incl_fold_get_other inc rest _
        (fun kv' h => hpfx kv' (List.mem_cons_of_mem _ h))
        _ (hstrip kv (List.mem_cons_self _ _)) hne_strip]
      have hne : kv.1 ≠ kv.1.drop inc.length := by
        intro hc
        have h1 := hpfx kv (List.mem_cons_self _ _)
        have h2 := hstrip kv (List.mem_cons_self _ _)
        rw [← hc, h1] at h2
        exact Bool.noConfusion h2
      rw [inclusionStep, dGet_dDel_ne _ hne, dGet_dSet_self]
    · exact ih _ (fun kv' h => hpfx kv' (List.mem_cons_of_mem _ h))
        (fun kv' h => hstrip kv' (List.mem_cons_of_mem _ h)) hnd.2 kv hkv_rest

/-- The per-DPI inner fold of apply_inclusions factors into one dSet of the
fully folded bucket. -/
theorem gen_inner_fold {α : Type} (n : Nat) (dpi : Nat) :
    ∀ (pngs : List (PathL × α)), pngs ≠ [] → ∀ (g : Dict Nat (Dict PathL α)),
      pngs.foldl (fun g kv =>
        dSet g dpi (inclusionStep n ((dGet g dpi).getD []) kv)) g =
      dSet g dpi (pngs.foldl (inclusionStep n) ((dGet g dpi).getD [])) := by
  intro pngs
  induction pngs with
  | nil => intro h; exact absurd rfl h
  | cons e rest ih =>
    intro _ g
    rw [List.foldl_cons]
    cases hrest : rest with
    | nil => rw [List.foldl_nil, List.foldl_cons, List.foldl_nil]
    | cons e2 rest2 =>
      rw [← hrest, ih (by rw [hrest]; exact List.cons_ne_nil _ _)]
      rw [dGet_dSet_self, Option.getD_some, dSet_dSet, List.foldl_cons]

/-- Reading one DPI bucket after the outer fold of apply_inclusions. -/
theorem gen_outer_fold {α : Type} (n : Nat) :
    ∀ (F : Dict Nat (Dict PathL α)) (g : Dict Nat (Dict PathL α)) (dpi : Nat),
      (∀ b ∈ F, b.2 ≠ []) → (dKeys F).Nodup →
      dGet (F.foldl (fun g b => b.2.foldl (fun g kv =>
          dSet g b.1 (inclusionStep n ((dGet g b.1).getD []) kv)) g) g) dpi =
        (match dGet F dpi with
         | some pngs => some (pngs.foldl (inclusionStep n) ((dGet g dpi).getD []))
         | none => dGet g dpi) := by
  intro F
  induction F with
  | nil => intro g dpi _ _; rfl
  | cons b rest ih =>
    intro g dpi hne hnd
    rw [dKeys, List.map_cons, List.nodup_cons] at hnd
    rw [List.foldl_cons, gen_inner_fold n b.1 b.2 (hne b (List.mem_cons_self b rest)) g,
      ih _ dpi (fun b' h => hne b' (List.mem_cons_of_mem b h)) hnd.2]
    by_cases hd : b.1 = dpi
    · have hget_rest : dGet rest dpi = none :=
        dGet_eq_none_of_not_mem_keys (by rw [← hd]; exact hnd.1)
      have hcons : dGet (b :: rest) dpi = some b.2 := by rw [dGet, if_pos hd]
      rw [hget_rest, hcons]
      show dGet (dSet g b.1 (b.2.foldl (inclusionStep n) ((dGet g b.1).getD []))) dpi = _
      rw [← hd, dGet_dSet_self]
    · have hcons : dGet (b :: rest) dpi = dGet rest dpi := by rw [dGet, if_neg hd]
      rw [hcons, dGet_dSet_ne _ _ hd]

/-- Keys of gen_images_filter form a sublist of the original DPI keys. -/
theorem gen_images_filter_keys {α : Type} (inc : PathL) :
    ∀ (gen : Dict Nat (Dict PathL α)),
      (dKeys (gen_images_filter inc gen)).Sublist (dKeys gen) := by
  intro gen
  induction gen with
  | nil => exact List.Sublist.refl _
  | cons b rest ih =>
    rw [gen_images_filter, List.foldr_cons]
    by_cases hemp : (b.2.filter (fun kv => pstartsWith kv.1 inc)).isEmpty = true
    · rw [if_pos hemp]
      show (dKeys (gen_images_filter inc rest)).Sublist (b.1 :: dKeys rest)
      exact ih.cons b.1
    · rw [if_neg hemp]
      show (b.1 :: dKeys (gen_images_filter inc rest)).Sublist (b.1 :: dKeys rest)
      exact ih.cons₂ b.1

/-- Every bucket kept by gen_images_filter is nonempty. -/
theorem gen_images_filter_nonempty {α : Type} (inc : PathL) :
    ∀ (gen : Dict Nat (Dict PathL α)) (b : Nat × Dict PathL α),
      b ∈ gen_images_filter inc gen → b.2 ≠ [] := by
  intro gen
  induction gen with
  | nil => intro b h; exact absurd h (List.not_mem_nil b)
  | cons e rest ih =>
    intro b h
    rw [gen_images_filter, List.foldr_cons] at h
    by_cases hemp : (e.2.filter (fun kv => pstartsWith kv.1 inc)).isEmpty = true
    · rw [if_pos hemp] at h
      exact ih b h
    · rw [if_neg hemp] at h
      rcases List.mem_cons.mp h with h1 | h2
      · rw [h1]
        intro hc
        dsimp only at hc
        exact hemp (by rw [hc]; rfl)
      · exact ih b h2

/-- gen_images_filter looks up as the per-bucket tier filter. -/
theorem gen_images_filter_get {α : Type} (inc : PathL) :
    ∀ (gen : Dict Nat (Dict PathL α)), (dKeys gen).Nodup → ∀ (dpi : Nat),
      dGet (gen_images_filter inc gen) dpi =
        (match dGet gen dpi with
         | none => none
         | some pngs =>
           if (pngs.filter (fun kv => pstartsWith kv.1 inc)).isEmpty then none
           else some (pngs.filter (fun kv => pstartsWith kv.1 inc))) := by
  intro gen
  induction gen with
  | nil => intro _ dpi; rfl
  | cons b rest ih =>
    intro hnd dpi
    rw [dKeys, List.map_cons, List.nodup_cons] at hnd
    rw [gen_images_filter, List.foldr_cons]
    by_cases hd : b.1 = dpi
    · have hrhs : (match dGet (b :: rest) dpi with
          | none => none
          | some pngs =>
            if (pngs.filter (fun kv => pstartsWith kv.1 inc)).isEmpty = true then none
            else some (pngs.filter (fun kv => pstartsWith kv.1 inc))) =
          (if (b.2.filter (fun kv => pstartsWith kv.1 inc)).isEmpty = true then none
           else some (b.2.filter (fun kv => pstartsWith kv.1 inc))) := by
        rw [show dGet (b :: rest) dpi = some b.2 from by rw [dGet, if_pos hd]]
      rw [hrhs]
      by_cases hemp : (b.2.filter (fun kv => pstartsWith kv.1 inc)).isEmpty = true
      · rw [if_pos hemp, if_pos hemp]
        show dGet (gen_images_filter inc rest) dpi = none
        exact dGet_eq_none_of_not_mem_keys
          (fun hc => hnd.1 (by rw [hd]; exact (gen_images_filter_keys inc rest).subset hc))
      · rw [if_neg hemp, if_neg hemp]
        rw [dGet, if_pos (show (b.1, b.2.filter
          (fun kv => pstartsWith kv.1 inc)).1 = dpi from hd)]
    · have hrhs : (match dGet (b :: rest) dpi with
          | none => (none : Option (Dict PathL α))
          | some pngs =>
            if (pngs.filter (fun kv : PathL × α => pstartsWith kv.1 inc)).isEmpty = true
            then none
            else some (pngs.filter (fun kv : PathL × α => pstartsWith kv.1 inc))) =
          (match dGet rest dpi with
          | none => (none : Option (Dict PathL α))
          | some pngs =>
            if (pngs.filter (fun kv : PathL × α => pstartsWith kv.1 inc)).isEmpty = true
            then none
            else some (pngs.filter (fun kv : PathL × α => pstartsWith kv.1 inc))) := by
        rw [show dGet (b :: rest) dpi = dGet rest dpi from by rw [dGet, if_neg hd]]
      rw [hrhs]
      by_cases hemp : (b.2.filter (fun kv => pstartsWith kv.1 inc)).isEmpty = true
      · rw [if_pos hemp]
        exact ih hnd.2 dpi
      · rw [if_neg hemp]
        rw [dGet, if_neg (show ¬((b.1, b.2.filter
          (fun kv => pstartsWith kv.1 inc)).1 = dpi) from hd)]
        exact ih hnd.2 dpi

/-- The three per-store conclusions of the subtree move, for a store whose
keys are distinct and contain no doubled tier folder. -/
theorem incl_store_facts {α : Type} (inc : PathL) (store : Dict PathL α)
    (hnd : (dKeys store).Nodup)
    (hnest : ∀ kv ∈ store, pstartsWith kv.1 (inc ++ inc) = false) :
    (∀ q, pstartsWith q inc = true →
      dGet ((store.filter (fun kv => pstartsWith kv.1 inc)).foldl
        (inclusionStep inc.length) store) q = none) ∧
    (∀ q v, dGet store (inc ++ q) = some v →
      dGet ((store.filter (fun kv => pstartsWith kv.1 inc)).foldl
        (inclusionStep inc.length) store) q = some v) ∧
    (∀ q, pstartsWith q inc = false → dGet store (inc ++ q) = none →
      dGet ((store.filter (fun kv => pstartsWith kv.1 inc)).foldl
        (inclusionStep inc.length) store) q = dGet store q) := by
  have hLpfx : ∀ kv ∈ store.filter (fun kv => pstartsWith kv.1 inc),
      pstartsWith kv.1 inc = true := fun kv h => (List.mem_filter.mp h).2
  have hLstrip : ∀ kv ∈ store.filter (fun kv => pstartsWith kv.1 inc),
      pstartsWith (kv.1.drop inc.length) inc = false := by
    intro kv hkv
    cases hs : pstartsWith (kv.1.drop inc.length) inc with
    | false => rfl
    | true =>
      have hdbl := pstartsWith_append_of_drop (hLpfx kv hkv) hs
      rw [hnest kv (List.mem_filter.mp hkv).1] at hdbl
      exact Bool.noConfusion hdbl
  have hLnd : (dKeys (store.filter (fun kv => pstartsWith kv.1 inc))).Nodup :=
    ((List.filter_sublist store).map Prod.fst).nodup hnd
  refine ⟨?_, ?_, ?_⟩
  · intro q hq
    rw [incl_fold_get_pfx inc _ store hLpfx hLstrip q hq]
    by_cases hmem : q ∈ dKeys (store.filter (fun kv => pstartsWith kv.1 inc))
    · rw [if_pos hmem]
    · rw [if_neg hmem]
      cases hg : dGet store q with
      | none => rfl
      | some v =>
        exact absurd (List.mem_map_of_mem Prod.fst
          (List.mem_filter.mpr ⟨mem_of_dGet_eq_some hg, hq⟩)) hmem
  · intro q v hget
    have hmemL : (inc ++ q, v) ∈ store.filter (fun kv => pstartsWith kv.1 inc) :=
      List.mem_filter.mpr ⟨mem_of_dGet_eq_some hget, pstartsWith_append inc q⟩
    have := incl_fold_get_strip inc _ store hLpfx hLstrip hLnd (inc ++ q, v) hmemL
    rwa [show (inc ++ q, v).1.drop inc.length = q from List.drop_left inc q] at this
  · intro q hq hget
    apply incl_fold_get_other inc _ store hLpfx q hq
    intro kv hkv hc
    have hk : kv.1 = inc ++ q := by
      have := append_drop_of_pstartsWith (hLpfx kv hkv)
      rw [hc] at this
      exact this.symm
    have hsome := dGet_isSome_of_mem (show (kv.1, kv.2) ∈ store from
      (List.mem_filter.mp hkv).1)
    rw [hk, hget] at hsome
    exact Bool.noConfusion hsome

/-- The degenerate situation: no tier-folder entries at all. -/
theorem incl_store_facts_empty {α : Type} (inc : PathL) (store : Dict PathL α)
    (hemp : (store.filter (fun kv => pstartsWith kv.1 inc)).isEmpty = true) :
    (∀ q, pstartsWith q inc = true → dGet store q = none) ∧
    (∀ q v, ¬ dGet store (inc ++ q) = some v) := by
  have hnil := List.isEmpty_iff.mp hemp
  constructor
  · intro q hq
    cases hg : dGet store q with
    | none => rfl
    | some v =>
      have : (q, v) ∈ store.filter (fun kv => pstartsWith kv.1 inc) :=
        List.mem_filter.mpr ⟨mem_of_dGet_eq_some hg, hq⟩
      rw [hnil] at this
      exact absurd this (List.not_mem_nil _)
  · intro q v hg
    have : (inc ++ q, v) ∈ store.filter (fun kv => pstartsWith kv.1 inc) :=
      List.mem_filter.mpr ⟨mem_of_dGet_eq_some hg, pstartsWith_append inc q⟩
    rw [hnil] at this
    exact absurd this (List.not_mem_nil _)

/-- C4 (amended): with no `<fmt>.json` manifest present, exclusion is a no-op;
and inclusion, provided no stored path begins with a doubled tier folder
`"<fmt>/<fmt>/"` (so no stripped path lands back inside the tier folder),
moves the `"<fmt>/"` subtree of the store and of every DPI bucket onto the
root: tier-prefixed paths are all removed, each stripped path afterwards
holds the override's content (replacing any prior entry there), and every
other path is untouched. -/
theorem c4_inclusion_override {α : Type} (cur_fmt : Nat)
    (src_files : Dict PathL α) (gen_images : Dict Nat (Dict PathL α))
    (inc : PathL) (hinc : inc = natStr cur_fmt ++ pstr "/")
    (hman : dGet src_files (natStr cur_fmt ++ pstr ".json") = none)
    (hndsrc : (dKeys src_files).Nodup)
    (hndgen : (dKeys gen_images).Nodup)
    (hndb : ∀ b ∈ gen_images, (dKeys b.2).Nodup)
    (hnest_src : ∀ kv ∈ src_files, pstartsWith kv.1 (inc ++ inc) = false)
    (hnest_gen : ∀ b ∈ gen_images, ∀ kv ∈ b.2,
      pstartsWith kv.1 (inc ++ inc) = false) :
    (∀ parse : α → List PathL,
      apply_exclusions parse cur_fmt src_files gen_images = (src_files, gen_images)) ∧
    (∀ q, pstartsWith q inc = true →
      dGet (apply_inclusions cur_fmt src_files gen_images).1 q = none) ∧
    (∀ q v, dGet src_files (inc ++ q) = some v →
      dGet (apply_inclusions cur_fmt src_files gen_images).1 q = some v) ∧
    (∀ q, pstartsWith q inc = false → dGet src_files (inc ++ q) = none →
      dGet (apply_inclusions cur_fmt src_files gen_images).1 q = dGet src_files q) ∧
    (∀ dpi pngs, dGet gen_images dpi = some pngs →
      (∀ q, pstartsWith q inc = true →
        dGet ((dGet (apply_inclusions cur_fmt src_files gen_images).2 dpi).getD [])
          q = none) ∧
      (∀ q v, dGet pngs (inc ++ q) = some v →
        dGet ((dGet (apply_inclusions cur_fmt src_files gen_images).2 dpi).getD [])
          q = some v) ∧
      (∀ q, pstartsWith q inc = false → dGet pngs (inc ++ q) = none →
        dGet ((dGet (apply_inclusions cur_fmt src_files gen_images).2 dpi).getD [])
          q = dGet pngs q)) := by
  subst hinc
  have happ : apply_inclusions cur_fmt src_files gen_images =
      (if ((src_files.filter (fun kv =>
            pstartsWith kv.1 (natStr cur_fmt ++ pstr "/"))).isEmpty &&
          (gen_images_filter (natStr cur_fmt ++ pstr "/") gen_images).isEmpty) = true
       then (src_files, gen_images)
       else ((src_files.filter (fun kv =>
               pstartsWith kv.1 (natStr cur_fmt ++ pstr "/"))).foldl
               (inclusionStep (natStr cur_fmt ++ pstr "/").length) src_files,
             (gen_images_filter (natStr cur_fmt ++ pstr "/") gen_images).foldl
               (fun g b => b.2.foldl (fun g kv => dSet g b.1
                 (inclusionStep (natStr cur_fmt ++ pstr "/").length
                   ((dGet g b.1).getD []) kv)) g) gen_images)) := by
    rw [apply_inclusions]
  refine ⟨fun parse => by rw [apply_exclusions, hman], ?_⟩
  by_cases hcond : ((src_files.filter (fun kv =>
        pstartsWith kv.1 (natStr cur_fmt ++ pstr "/"))).isEmpty &&
      (gen_images_filter (natStr cur_fmt ++ pstr "/") gen_images).isEmpty) = true
  · -- no tier entries anywhere: apply_inclusions returns the inputs unchanged
    rw [happ, if_pos hcond]
    rw [Bool.and_eq_true] at hcond
    obtain ⟨hse, hge⟩ := hcond
    have hs := incl_store_facts_empty (natStr cur_fmt ++ pstr "/") src_files hse
    refine ⟨hs.1, fun q v hg => absurd hg (hs.2 q v), fun q _ _ => rfl, ?_⟩
    intro dpi pngs hdpi
    have hFget : dGet (gen_images_filter (natStr cur_fmt ++ pstr "/") gen_images)
        dpi = (if (pngs.filter (fun kv =>
            pstartsWith kv.1 (natStr cur_fmt ++ pstr "/"))).isEmpty = true then none
          else some (pngs.filter (fun kv =>
            pstartsWith kv.1 (natStr cur_fmt ++ pstr "/")))) := by
      rw [gen_images_filter_get _ gen_images hndgen dpi, hdpi]
    have hFnil := List.isEmpty_iff.mp hge
    rw [hFnil] at hFget
    have hpe : (pngs.filter (fun kv =>
        pstartsWith kv.1 (natStr cur_fmt ++ pstr "/"))).isEmpty = true := by
      by_contra hc
      rw [if_neg hc] at hFget
      exact Option.noConfusion hFget
    have hp := incl_store_facts_empty (natStr cur_fmt ++ pstr "/") pngs hpe
    rw [hdpi]
    exact ⟨hp.1, fun q v hg => absurd hg (hp.2 q v), fun q _ _ => rfl⟩
  · rw [happ, if_neg hcond]
    have hs := incl_store_facts (natStr cur_fmt ++ pstr "/") src_files hndsrc hnest_src
    refine ⟨hs.1, hs.2.1, hs.2.2, ?_⟩
    intro dpi pngs hdpi
    have houter := gen_outer_fold (natStr cur_fmt ++ pstr "/").length
      (gen_images_filter (natStr cur_fmt ++ pstr "/") gen_images) gen_images dpi
      (gen_images_filter_nonempty _ gen_images)
      ((gen_images_filter_keys _ gen_images).nodup hndgen)
    have hFget : dGet (gen_images_filter (natStr cur_fmt ++ pstr "/") gen_images)
        dpi = (if (pngs.filter (fun kv =>
            pstartsWith kv.1 (natStr cur_fmt ++ pstr "/"))).isEmpty = true then none
          else some (pngs.filter (fun kv =>
            pstartsWith kv.1 (natStr cur_fmt ++ pstr "/")))) := by
      rw [gen_images_filter_get _ gen_images hndgen dpi, hdpi]
    by_cases hpe : (pngs.filter (fun kv =>
        pstartsWith kv.1 (natStr cur_fmt ++ pstr "/"))).isEmpty = true
    · -- this DPI bucket has no tier entries: it is untouched
      rw [if_pos hpe] at hFget
      have hbucket : dGet ((gen_images_filter (natStr cur_fmt ++ pstr "/")
          gen_images).foldl (fun g b => b.2.foldl (fun g kv => dSet g b.1
            (inclusionStep (natStr cur_fmt ++ pstr "/").length
              ((dGet g b.1).getD []) kv)) g) gen_images) dpi = some pngs := by
        rw [houter, hFget, hdpi]
      rw [hbucket]
      have hp := incl_store_facts_empty (natStr cur_fmt ++ pstr "/") pngs hpe
      exact ⟨hp.1, fun q v hg => absurd hg (hp.2 q v), fun q _ _ => rfl⟩
    · rw [if_neg hpe] at hFget
      have hbucket : dGet ((gen_images_filter (natStr cur_fmt ++ pstr "/")
          gen_images).foldl (fun g b => b.2.foldl (fun g kv => dSet g b.1
            (inclusionStep (natStr cur_fmt ++ pstr "/").length
              ((dGet g b.1).getD []) kv)) g) gen_images) dpi =
          some ((pngs.filter (fun kv =>
            pstartsWith kv.1 (natStr cur_fmt ++ pstr "/"))).foldl
            (inclusionStep (natStr cur_fmt ++ pstr "/").length) pngs) := by
        rw [houter, hFget, hdpi]
        rfl
      rw [hbucket]
      have hmemg : (dpi, pngs) ∈ gen_images := mem_of_dGet_eq_some hdpi
      have hp := incl_store_facts (natStr cur_fmt ++ pstr "/") pngs
        (hndb (dpi, pngs) hmemg) (hnest_gen (dpi, pngs) hmemg)
      exact ⟨hp.1, hp.2.1, hp.2.2⟩

/-- C4 counterexample: tier 6 with no `6.json` manifest and store
`{"6/6/x": 1, "6/x": 2}`.  Stripping `"6/6/x"` yields `"6/x"`, but the later
move of the original `"6/x"` deletes that key outright, so the override's
content (1) does NOT remain at `"6/x"` - the final store is `{"x": 2}` -
refuting the claim as universally stated. -/
theorem c4_counterexample :
    dGet [(pstr "6/6/x", (1 : Nat)), (pstr "6/x", 2)] (pstr "6.json") = none ∧
    (apply_inclusions 6 [(pstr "6/6/x", (1 : Nat)), (pstr "6/x", 2)] []).1 =
      [(pstr "x", 2)] ∧
    dGet (apply_inclusions 6 [(pstr "6/6/x", (1 : Nat)), (pstr "6/x", 2)] []).1
      (pstr "6/x") = none :=
  ⟨by decide, by decide, by decide⟩

/-- C4 witness: tier `"6/overlay.png"` with no `6.json` manifest - exclusion
no-ops, the stripped path `"overlay.png"` replaces the prior entry with the
override's content, and the tier-prefixed original is removed. -/
theorem c4_inclusion_override_witness :
    (∀ parse : Nat → List PathL,
      apply_exclusions parse 6 [(pstr "6/overlay.png", (1 : Nat)), (pstr "overlay.png", 2)]
        [] = ([(pstr "6/overlay.png", (1 : Nat)), (pstr "overlay.png", 2)], [])) ∧
    dGet (apply_inclusions 6
      [(pstr "6/overlay.png", (1 : Nat)), (pstr "overlay.png", 2)] []).1
      (pstr "overlay.png") = some 1 ∧
    dGet (apply_inclusions 6
      [(pstr "6/overlay.png", (1 : Nat)), (pstr "overlay.png", 2)] []).1
      (pstr "6/overlay.png") = none := by
  have h := c4_inclusion_override 6
    [(pstr "6/overlay.png", (1 : Nat)), (pstr "overlay.png", 2)] []
    (pstr "6/") (by decide) (by decide) (by decide) (by decide)
    (by intro b hb; exact absurd hb (List.not_mem_nil b))
    (by decide) (by intro b hb; exact absurd hb (List.not_mem_nil b))
  refine ⟨h.1, ?_, h.2.1 (pstr "6/overlay.png") (by decide)⟩
  have := h.2.2.1 (pstr "overlay.png") 1 (by decide)
  exact this
